import Mathlib

/-!
Verification of the zap-format core: a shallow embedding of the Zap
configuration language lexer, recursive-descent parser and canonical
formatter, together with theorems settling the specification claims.

Numbers: the host language's IEEE floating point numbers are modelled as
rationals (exact for the decimal literals the lexer produces); IEEE
rounding artifacts are out of scope.
-/

namespace Zap

/-- Token kinds of the Zap lexer.  The enum source file is absent from the
sources; the constructors are reconstructed from every use site in the
lexer and parser. -/
inductive TokenType where
  | ALIGNED_CFRAME | ARGS | BOOLEAN | BOOLEAN_LITERAL | BRICK_COLOR | CALL
  | CFRAME | COLON | COLOR3 | COMMA | COMMENT | DATA | DATETIME
  | DATETIME_MILLIS | DOT_DOT | ENUM | EOF | EQUALS | EVENT | F32 | F64
  | FROM | FUNCT | GREATER_THAN | I8 | I16 | I32 | IDENTIFIER | INSTANCE
  | LEFT_BRACE | LEFT_BRACKET | LEFT_PAREN | LESS_THAN | MAP | NAMESPACE
  | NEWLINE | NUMBER_LITERAL | OPT | PIPE | QUESTION | RETS | RIGHT_BRACE
  | RIGHT_BRACKET | RIGHT_PAREN | SET | STRING | STRING_LITERAL | STRUCT
  | TYPE | U8 | U16 | U32 | UNKNOWN | VECTOR | VECTOR2 | VECTOR3
  | WHITESPACE
  deriving DecidableEq, BEq, Repr

/-- A single token produced by the Zap lexer (field order as in the
source's `Token` interface). -/
structure Token where
  column : Nat
  line : Nat
  type : TokenType
  value : String
  deriving DecidableEq, BEq, Repr

/-- String prefix test over the character list (the host language's
`startsWith`). -/
def strStartsWith (s pre : String) : Bool := pre.data.isPrefixOf s.data

/-- String suffix test over the character list (the host language's
`endsWith`). -/
def strEndsWith (s post : String) : Bool := post.data.isSuffixOf s.data

/-- Character membership over the character list (the host language's
`includes` for a single character). -/
def strContainsChar (s : String) (c : Char) : Bool := s.data.contains c

/-- Drop of the first `n` characters (the host language's `slice(n)`). -/
def strDrop (s : String) (n : Nat) : String := String.mk (s.data.drop n)

/-- Drop of the last `n` characters (with `strDrop`, the host language's
`slice(a, -b)`). -/
def strDropRight (s : String) (n : Nat) : String :=
  String.mk (s.data.take (s.data.length - n))

namespace ZapLexer

/-- Display name of a token type for error messages.  Modelled from the
spec: the `TokenTypeMeta` name table is absent from the sources, so the
enum constant spellings are used. -/
def tokenTypeName : TokenType → String
  | .ALIGNED_CFRAME => "ALIGNED_CFRAME" | .ARGS => "ARGS"
  | .BOOLEAN => "BOOLEAN" | .BOOLEAN_LITERAL => "BOOLEAN_LITERAL"
  | .BRICK_COLOR => "BRICK_COLOR" | .CALL => "CALL" | .CFRAME => "CFRAME"
  | .COLON => "COLON" | .COLOR3 => "COLOR3" | .COMMA => "COMMA"
  | .COMMENT => "COMMENT" | .DATA => "DATA" | .DATETIME => "DATETIME"
  | .DATETIME_MILLIS => "DATETIME_MILLIS" | .DOT_DOT => "DOT_DOT"
  | .ENUM => "ENUM" | .EOF => "EOF" | .EQUALS => "EQUALS"
  | .EVENT => "EVENT" | .F32 => "F32" | .F64 => "F64" | .FROM => "FROM"
  | .FUNCT => "FUNCT" | .GREATER_THAN => "GREATER_THAN" | .I8 => "I8"
  | .I16 => "I16" | .I32 => "I32" | .IDENTIFIER => "IDENTIFIER"
  | .INSTANCE => "INSTANCE" | .LEFT_BRACE => "LEFT_BRACE"
  | .LEFT_BRACKET => "LEFT_BRACKET" | .LEFT_PAREN => "LEFT_PAREN"
  | .LESS_THAN => "LESS_THAN" | .MAP => "MAP" | .NAMESPACE => "NAMESPACE"
  | .NEWLINE => "NEWLINE" | .NUMBER_LITERAL => "NUMBER_LITERAL"
  | .OPT => "OPT" | .PIPE => "PIPE" | .QUESTION => "QUESTION"
  | .RETS => "RETS" | .RIGHT_BRACE => "RIGHT_BRACE"
  | .RIGHT_BRACKET => "RIGHT_BRACKET" | .RIGHT_PAREN => "RIGHT_PAREN"
  | .SET => "SET" | .STRING => "STRING"
  | .STRING_LITERAL => "STRING_LITERAL" | .STRUCT => "STRUCT"
  | .TYPE => "TYPE" | .U8 => "U8" | .U16 => "U16" | .U32 => "U32"
  | .UNKNOWN => "UNKNOWN" | .VECTOR => "VECTOR" | .VECTOR2 => "VECTOR2"
  | .VECTOR3 => "VECTOR3" | .WHITESPACE => "WHITESPACE"

/-- The lexer's keyword table, in source order. -/
def keywords : List (String × TokenType) :=
  [("AlignedCFrame", .ALIGNED_CFRAME), ("args", .ARGS),
   ("Async", .IDENTIFIER), ("boolean", .BOOLEAN),
   ("BrickColor", .BRICK_COLOR), ("call", .CALL),
   ("camelCase", .IDENTIFIER), ("CFrame", .CFRAME),
   ("Client", .IDENTIFIER), ("Color3", .COLOR3),
   ("ConstEnum", .IDENTIFIER), ("data", .DATA), ("DateTime", .DATETIME),
   ("DateTimeMillis", .DATETIME_MILLIS), ("enum", .ENUM),
   ("event", .EVENT), ("f32", .F32), ("f64", .F64),
   ("false", .BOOLEAN_LITERAL), ("from", .FROM), ("funct", .FUNCT),
   ("future", .IDENTIFIER), ("i8", .I8), ("i16", .I16), ("i32", .I32),
   ("Instance", .INSTANCE), ("ManyAsync", .IDENTIFIER),
   ("ManySync", .IDENTIFIER), ("map", .MAP), ("namespace", .NAMESPACE),
   ("opt", .OPT), ("PascalCase", .IDENTIFIER), ("Polling", .IDENTIFIER),
   ("promise", .IDENTIFIER), ("Reliable", .IDENTIFIER), ("rets", .RETS),
   ("Server", .IDENTIFIER), ("set", .SET), ("SingleAsync", .IDENTIFIER),
   ("SingleSync", .IDENTIFIER), ("snake_case", .IDENTIFIER),
   ("string", .STRING), ("StringConstEnum", .IDENTIFIER),
   ("StringLiteral", .IDENTIFIER), ("struct", .STRUCT),
   ("Sync", .IDENTIFIER), ("true", .BOOLEAN_LITERAL), ("type", .TYPE),
   ("u8", .U8), ("u16", .U16), ("u32", .U32), ("unknown", .UNKNOWN),
   ("Unreliable", .IDENTIFIER), ("utf8", .IDENTIFIER),
   ("Vector2", .VECTOR2), ("Vector3", .VECTOR3), ("vector", .VECTOR),
   ("yield", .IDENTIFIER)]

/-- Character class `isAlpha` of the lexer. -/
def isAlpha (c : Char) : Bool :=
  (('a' ≤ c ∧ c ≤ 'z') ∨ ('A' ≤ c ∧ c ≤ 'Z') ∨ c = '_' : Bool)

/-- Character class `isDigit` of the lexer. -/
def isDigit (c : Char) : Bool := ('0' ≤ c ∧ c ≤ '9' : Bool)

/-- Character class `isAlphaNumeric` of the lexer. -/
def isAlphaNumeric (c : Char) : Bool := isAlpha c || isDigit c

/-- One `advance` step of the line/column bookkeeping: a newline starts a
new 1-based line, any other character moves one column right. -/
def stepLC (lc : Nat × Nat) (c : Char) : Nat × Nat :=
  if c = '\n' then (lc.1 + 1, 1) else (lc.1, lc.2 + 1)

/-- The lexer's `skipWhitespace`: consume spaces, tabs and carriage
returns (not newlines). -/
def skipWhitespace : List Char → Nat → Nat → List Char × Nat × Nat
  | c :: cs, l, k =>
    if c = ' ' ∨ c = '\t' ∨ c = '\r' then skipWhitespace cs l (k + 1)
    else (c :: cs, l, k)
  | [], l, k => ([], l, k)

/-- Body of `readComment`: consume characters up to (excluding) the next
newline or end of input, accumulating the comment text. -/
def readCommentBody : List Char → Nat → Nat → String →
    String × List Char × Nat × Nat
  | c :: cs, l, k, acc =>
    if c = '\n' then (acc, c :: cs, l, k)
    else readCommentBody cs l (k + 1) (acc.push c)
  | [], l, k, acc => (acc, [], l, k)

/-- Run of identifier characters (`isAlphaNumeric` or underscore), as in
the loops of `readIdentifier`. -/
def readIdentRun : List Char → Nat → Nat → String →
    String × List Char × Nat × Nat
  | c :: cs, l, k, acc =>
    if isAlphaNumeric c || c = '_' then readIdentRun cs l (k + 1) (acc.push c)
    else (acc, c :: cs, l, k)
  | [], l, k, acc => (acc, [], l, k)

/-- The lexer's `readIdentifier`: a run of identifier characters,
optionally followed by a single dot and a second run (dotted qualified
names); dotted text is always an `IDENTIFIER`, otherwise the keyword
table decides. -/
def readIdentifier (cs : List Char) (l k : Nat) (startL startC : Nat) :
    Token × List Char × Nat × Nat :=
  let (v₁, cs₁, l₁, k₁) := readIdentRun cs l k ""
  let (v₂, cs₂, l₂, k₂) :=
    match cs₁ with
    | '.' :: cs' => readIdentRun cs' l₁ (k₁ + 1) (v₁.push '.')
    | _ => (v₁, cs₁, l₁, k₁)
  if strContainsChar v₂ '.' then
    (⟨startC, startL, .IDENTIFIER, v₂⟩, cs₂, l₂, k₂)
  else
    let tokenType := (keywords.lookup v₂).getD .IDENTIFIER
    (⟨startC, startL, tokenType, v₂⟩, cs₂, l₂, k₂)

/-- The lexer's `readNumber`: digits with at most one decimal point; a
dot immediately followed by a second dot is left for the range
operator. -/
def readNumberBody : List Char → Nat → Nat → String → Bool →
    String × List Char × Nat × Nat
  | c :: cs, l, k, acc, hasDot =>
    if isDigit c then readNumberBody cs l (k + 1) (acc.push c) hasDot
    else if c = '.' ∧ hasDot = false then
      match cs with
      | '.' :: _ => (acc, c :: cs, l, k)
      | _ => readNumberBody cs l (k + 1) (acc.push c) true
  else (acc, c :: cs, l, k)
  | [], l, k, acc, _ => (acc, [], l, k)

/-- Body of `readStringLiteral`: consume until the closing quote,
decoding the recognized escapes and dropping the backslash of any other
escape; reaching end of input is the unterminated-string error. -/
def readStringBody (startL startC : Nat) : List Char → Nat → Nat → String →
    Except String (String × List Char × Nat × Nat)
  | [], _, _, _ =>
    .error s!"Unterminated string literal at line {startL}, column {startC}"
  | c :: cs, l, k, acc =>
    if c = '"' then .ok (acc, cs, l, k + 1)
    else if c = '\\' then
      match cs with
      | [] =>
        .error
          s!"Unterminated string literal at line {startL}, column {startC}"
      | e :: cs' =>
        let decoded : Char :=
          match e with
          | '"' => '"' | '\\' => '\\' | 'n' => '\n' | 'r' => '\r'
          | 't' => '\t' | _ => e
        let lc := stepLC (l, k + 1) e
        readStringBody startL startC cs' lc.1 lc.2 (acc.push decoded)
    else
      let lc := stepLC (l, k) c
      readStringBody startL startC cs lc.1 lc.2 (acc.push c)

/-- Two-character lookahead of the lexer's `match` helper. -/
def matchTwo (a b : Char) : List Char → Bool
  | x :: y :: _ => x == a && y == b
  | _ => false

/-- The lexer's `nextToken`: skip whitespace, then produce the next token
(`none` when the input is exhausted), or fail on an unexpected character
or unterminated string. -/
def nextToken (cs : List Char) (l k : Nat) :
    Except String (Option Token × List Char × Nat × Nat) :=
  let s₁ := skipWhitespace cs l k
  let cs₁ := s₁.1
  let l₁ := s₁.2.1
  let k₁ := s₁.2.2
  if cs₁.isEmpty then .ok (none, cs₁, l₁, k₁)
  else if matchTwo '-' '-' cs₁ then
    let r := readCommentBody cs₁.tail.tail l₁ (k₁ + 2) ""
    .ok (some ⟨k₁, l₁, .COMMENT, "--" ++ r.1⟩, r.2.1, r.2.2.1, r.2.2.2)
  else if matchTwo '.' '.' cs₁ then
    .ok (some ⟨k₁, l₁, .DOT_DOT, ".."⟩, cs₁.tail.tail, l₁, k₁ + 2)
  else
    let c := cs₁.headD '\x00'
    if c = '\n' then .ok (some ⟨k₁, l₁, .NEWLINE, "\n"⟩, cs₁.tail, l₁ + 1, 1)
    else if c = '(' then
      .ok (some ⟨k₁, l₁, .LEFT_PAREN, "("⟩, cs₁.tail, l₁, k₁ + 1)
    else if c = ')' then
      .ok (some ⟨k₁, l₁, .RIGHT_PAREN, ")"⟩, cs₁.tail, l₁, k₁ + 1)
    else if c = ',' then
      .ok (some ⟨k₁, l₁, .COMMA, ","⟩, cs₁.tail, l₁, k₁ + 1)
    else if c = ':' then
      .ok (some ⟨k₁, l₁, .COLON, ":"⟩, cs₁.tail, l₁, k₁ + 1)
    else if c = '<' then
      .ok (some ⟨k₁, l₁, .LESS_THAN, "<"⟩, cs₁.tail, l₁, k₁ + 1)
    else if c = '=' then
      .ok (some ⟨k₁, l₁, .EQUALS, "="⟩, cs₁.tail, l₁, k₁ + 1)
    else if c = '>' then
      .ok (some ⟨k₁, l₁, .GREATER_THAN, ">"⟩, cs₁.tail, l₁, k₁ + 1)
    else if c = '?' then
      .ok (some ⟨k₁, l₁, .QUESTION, "?"⟩, cs₁.tail, l₁, k₁ + 1)
    else if c = '[' then
      .ok (some ⟨k₁, l₁, .LEFT_BRACKET, "["⟩, cs₁.tail, l₁, k₁ + 1)
    else if c = ']' then
      .ok (some ⟨k₁, l₁, .RIGHT_BRACKET, "]"⟩, cs₁.tail, l₁, k₁ + 1)
    else if c = '\x7b' then
      .ok (some ⟨k₁, l₁, .LEFT_BRACE, "\x7b"⟩, cs₁.tail, l₁, k₁ + 1)
    else if c = '|' then
      .ok (some ⟨k₁, l₁, .PIPE, "|"⟩, cs₁.tail, l₁, k₁ + 1)
    else if c = '\x7d' then
      .ok (some ⟨k₁, l₁, .RIGHT_BRACE, "\x7d"⟩, cs₁.tail, l₁, k₁ + 1)
    else if c = '"' then
      match readStringBody l₁ k₁ cs₁.tail l₁ (k₁ + 1) "" with
      | .error e => .error e
      | .ok (v, cs', l', k') =>
        .ok (some ⟨k₁, l₁, .STRING_LITERAL, "\"" ++ v ++ "\""⟩, cs', l', k')
    else if isDigit c then
      let r := readNumberBody cs₁ l₁ k₁ "" false
      .ok (some ⟨k₁, l₁, .NUMBER_LITERAL, r.1⟩, r.2.1, r.2.2.1, r.2.2.2)
    else if isAlpha c then
      let r := readIdentifier cs₁ l₁ k₁ l₁ k₁
      .ok (some r.1, r.2.1, r.2.2.1, r.2.2.2)
    else
      .error s!"Unexpected character '{c}' at line {l₁}, column {k₁}"

/-- Message of the fuel-exhaustion branch of the tokenizer loop; the
termination theorem shows it is never produced. -/
def lexFuelMsg : String := "Lexer ran out of fuel"

/-- The tokenizer's main loop: emit tokens until the input is exhausted,
then append the single `EOF` token at the current position. -/
def tokenizeGo : Nat → List Char → Nat → Nat → Except String (List Token)
  | 0, _, _, _ => .error lexFuelMsg
  | fuel + 1, cs, l, k =>
    match cs with
    | [] => .ok [⟨k, l, .EOF, ""⟩]
    | c :: cs' =>
      match nextToken (c :: cs') l k with
      | .error e => .error e
      | .ok (otok, cs₂, l₂, k₂) =>
        match tokenizeGo fuel cs₂ l₂ k₂ with
        | .error e => .error e
        | .ok rest =>
          .ok (match otok with | some t => t :: rest | none => rest)

/-- The lexer's `tokenize` entry point. -/
def tokenize (s : String) : Except String (List Token) :=
  tokenizeGo (s.length + 1) s.data 1 1

end ZapLexer

/-- Range constraint for numeric types: optional minimum and maximum. -/
structure RangeConstraint where
  max : Option ℚ := none
  min : Option ℚ := none

/-- Type nodes of the Zap AST, one constructor per `subtype` of the
source's tagged `TypeNode` hierarchy.  Tuple elements are optional-name /
type pairs, struct fields are name / type pairs, enum variants are a name
with an optional struct-field payload. -/
inductive TypeNode where
  | primitive (name : String) (constraint : Option RangeConstraint)
  | array (elementType : TypeNode) (constraint : Option RangeConstraint)
  | map (keyType : TypeNode) (valueType : TypeNode)
  | set (elementType : TypeNode)
  | optional (innerType : TypeNode)
  | union (types : List TypeNode)
  | instanceType (className : Option String)
  | tuple (elements : List (Option String × TypeNode))
  | struct (fields : List (String × TypeNode))
  | enum (tagField : Option String)
      (variants : List (String × Option (List (String × TypeNode))))
  | vector (components : Option (List TypeNode))

/-- Value of an `opt` declaration: boolean, number or string. -/
inductive OptionValue where
  | boolean (b : Bool)
  | number (n : ℚ)
  | string (s : String)

/-- An `opt key = value` declaration. -/
structure OptionNode where
  key : String
  value : OptionValue

/-- Properties record of an event; absent keys are `none`.  The source
field `from` is spelled `from_` (`from` is reserved in Lean). -/
structure EventProperties where
  call : Option String := none
  data : Option TypeNode := none
  from_ : Option String := none
  type : Option String := none

/-- Properties record of a function; absent keys are `none`. -/
structure FunctionProperties where
  args : Option TypeNode := none
  call : Option String := none
  rets : Option TypeNode := none

/-- A namespace member: comment, event or function (namespaces are flat). -/
inductive Member where
  | comment (text : String)
  | event (name : String) (properties : EventProperties)
  | function (name : String) (properties : FunctionProperties)

/-- A top-level item of a configuration.  The source constructor
`namespace` is spelled `namespaceDecl` (`namespace` is reserved in
Lean). -/
inductive Item where
  | comment (text : String)
  | event (name : String) (properties : EventProperties)
  | function (name : String) (properties : FunctionProperties)
  | namespaceDecl (name : String) (members : List Member)
  | typeDefinition (name : String) (definition : TypeNode)

/-- The root configuration node: ordered options and ordered items. -/
structure ZapConfig where
  items : List Item
  options : List OptionNode

/-- Digit run to natural number. -/
def digitsToNat (cs : List Char) : Nat :=
  cs.foldl (fun acc c => acc * 10 + (c.toNat - '0'.toNat)) 0

/-- The host language's `Number.parseFloat` on the lexer's number-literal
values (digits with at most one decimal point), modelled exactly as a
rational. -/
def parseFloatQ (s : String) : ℚ :=
  let ip := s.data.takeWhile ZapLexer.isDigit
  let rest := s.data.dropWhile ZapLexer.isDigit
  let fp := match rest with
    | '.' :: fs => fs.takeWhile ZapLexer.isDigit
    | _ => []
  (digitsToNat ip : ℚ) + (digitsToNat fp : ℚ) / (10 : ℚ) ^ fp.length

/-- Truthiness of an optional string under the host language's rules: an
absent value and the empty string are falsy. -/
def optTruthy : Option String → Bool
  | some s => s != ""
  | none => false

namespace ZapParser

open ZapLexer (tokenTypeName)

/-- Token returned by `peek` past the end of the stream (the stream the
program builds always ends in a real `EOF` token, so this default is
unreachable there). -/
def eofDummy : Token := ⟨0, 0, .EOF, ""⟩

/-- The parser's `peek`: current token. -/
def peekT (ts : List Token) : Token := ts.headD eofDummy

/-- The parser's `peekNext`: token after the current one, if any. -/
def peekNextT : List Token → Option Token
  | _ :: t :: _ => some t
  | _ => none

/-- The parser's `isAtEnd`: current token is `EOF`. -/
def isAtEnd (ts : List Token) : Bool := (peekT ts).type == .EOF

/-- The parser's `check`: current token has the given type (never true at
end of stream). -/
def checkT (ty : TokenType) (ts : List Token) : Bool :=
  if isAtEnd ts then false else (peekT ts).type == ty

/-- The parser's `skipNewlines`: drop leading `NEWLINE` tokens. -/
def skipNewlines : List Token → List Token
  | t :: ts => if t.type == .NEWLINE then skipNewlines ts else t :: ts
  | [] => []

/-- The parser's `consume`: require a token of the given type and
advance, else fail with the given message plus the offending token. -/
def consume (ty : TokenType) (message : String) (ts : List Token) :
    Except String (Token × List Token) :=
  if checkT ty ts then .ok (peekT ts, ts.tail)
  else
    let t := peekT ts
    .error s!"{message}. Got '{tokenTypeName t.type}' at line {t.line}"

/-- Token kinds that denote standard (primitive) types. -/
def STANDARD_TYPES : List TokenType :=
  [.ALIGNED_CFRAME, .BOOLEAN, .BRICK_COLOR, .CFRAME, .COLOR3, .DATETIME,
   .DATETIME_MILLIS, .F32, .F64, .I8, .I16, .I32, .STRING, .U8, .U16,
   .U32, .UNKNOWN, .VECTOR, .VECTOR2, .VECTOR3]

/-- Base spellings accepted for dotted primitive identifiers. -/
def NUMBER_TYPES : List String :=
  ["f32", "f64", "i8", "i16", "i32", "string", "u8", "u16", "u32"]

/-- Token kinds accepted as property / parameter names. -/
def PROPERTY_TYPES : List TokenType :=
  [.ARGS, .CALL, .DATA, .FROM, .IDENTIFIER, .RETS, .TYPE]

/-- Token kinds accepted (besides `IDENTIFIER`) as identifier values. -/
def IDENTIFIER_SET : List TokenType := [.CALL, .DATA, .FROM, .TYPE]

/-- The parser's `consumeIdentifierValue`. -/
def consumeIdentifierValue (ts : List Token) :
    Except String (String × List Token) :=
  let token := peekT ts
  if token.type == .IDENTIFIER then .ok (token.value, ts.tail)
  else if IDENTIFIER_SET.contains token.type then .ok (token.value, ts.tail)
  else
    .error
      s!"Expected identifier value, got '{tokenTypeName token.type}' at line {token.line}"

/-- The parser's `isValidParameterName`. -/
def isValidParameterName (ts : List Token) : Bool :=
  PROPERTY_TYPES.contains (peekT ts).type

/-- The parser's `consumePropertyName`. -/
def consumePropertyName (ts : List Token) :
    Except String (String × List Token) :=
  let token := peekT ts
  if PROPERTY_TYPES.contains token.type then .ok (token.value, ts.tail)
  else
    .error
      s!"Expected property name, got '{tokenTypeName token.type}' at line {token.line}"

/-- The parser's `isPrimitiveType`: a standard type token, or a dotted
identifier whose base is one of the number-type spellings. -/
def isPrimitiveType (ts : List Token) : Bool :=
  let t := peekT ts
  if STANDARD_TYPES.contains t.type then true
  else if t.type == .IDENTIFIER && strContainsChar t.value '.' then
    let baseType := String.mk (t.value.data.takeWhile fun c => c ≠ '.')
    if baseType = "" then false else NUMBER_TYPES.contains baseType
  else false

/-- The parser's `parseRangeConstraintContent` (never fails; an absent
bound is `none`). -/
def parseRangeConstraintContent (ts : List Token) :
    RangeConstraint × List Token :=
  if checkT .DOT_DOT ts then
    let ts₁ := ts.tail
    if checkT .NUMBER_LITERAL ts₁ then
      ({ max := some (parseFloatQ (peekT ts₁).value) }, ts₁.tail)
    else ({}, ts₁)
  else if checkT .NUMBER_LITERAL ts then
    let mn := parseFloatQ (peekT ts).value
    let ts₁ := ts.tail
    if checkT .DOT_DOT ts₁ then
      let ts₂ := ts₁.tail
      if checkT .NUMBER_LITERAL ts₂ then
        ({ max := some (parseFloatQ (peekT ts₂).value), min := some mn },
          ts₂.tail)
      else ({ min := some mn }, ts₂)
    else ({ max := some mn, min := some mn }, ts₁)
  else ({}, ts)

/-- The parser's `parseRangeConstraint`: parenthesized constraint. -/
def parseRangeConstraint (ts : List Token) :
    Except String (RangeConstraint × List Token) := do
  let (_, ts₁) ← consume .LEFT_PAREN "Expected \"(\"" ts
  let (constraint, ts₂) := parseRangeConstraintContent ts₁
  let (_, ts₃) ← consume .RIGHT_PAREN "Expected \")\"" ts₂
  .ok (constraint, ts₃)

/-- The parser's `parseInstanceType`: `Instance` with an optional
parenthesized class name. -/
def parseInstanceType (ts : List Token) :
    Except String (TypeNode × List Token) := do
  let (_, ts₁) ← consume .INSTANCE "Expected \"Instance\"" ts
  if checkT .LEFT_PAREN ts₁ then do
    let (className, ts₂) ← consumeIdentifierValue ts₁.tail
    let (_, ts₃) ← consume .RIGHT_PAREN "Expected \")\"" ts₂
    .ok (.instanceType (some className), ts₃)
  else .ok (.instanceType none, ts₁)

/-- The parser's `parsePrimitiveType`: a type name optionally followed by
a parenthesized range constraint or a bracketed array suffix. -/
def parsePrimitiveType (ts : List Token) :
    Except String (TypeNode × List Token) :=
  let typeName := (peekT ts).value
  let ts₁ := ts.tail
  if checkT .LEFT_PAREN ts₁ then do
    let (constraint, ts₂) ← parseRangeConstraint ts₁
    .ok (.primitive typeName (some constraint), ts₂)
  else if checkT .LEFT_BRACKET ts₁ then do
    let ts₂ := ts₁.tail
    let (arrayConstraint, ts₃) :=
      if !checkT .RIGHT_BRACKET ts₂ then
        let r := parseRangeConstraintContent ts₂
        (some r.1, r.2)
      else (none, ts₂)
    let (_, ts₄) ← consume .RIGHT_BRACKET "Expected \"]\"" ts₃
    .ok (.array (.primitive typeName none) arrayConstraint, ts₄)
  else .ok (.primitive typeName none, ts₁)

/-- Fuel-exhaustion message of the recursive-descent parser.  The fuel
budget supplied by `parse` is generous; claims about accepted inputs are
conditioned on a successful parse. -/
def parserFuelMsg : String := "Parser ran out of fuel"

/-- The mutually recursive type-expression parsers of one fuel level.
The family is stratified by fuel (every call between these parsers in
the source corresponds to one fuel decrement) so that the recursion is
a single structural descent on the fuel counter; the named wrappers
below restore the source method names and signatures. -/
structure TypeParsers where
  pType : List Token → Except String (TypeNode × List Token)
  pUnionType : List Token → Except String (TypeNode × List Token)
  pUnionLoop : List TypeNode → List Token →
    Except String (List TypeNode × List Token)
  pOptionalType : List Token → Except String (TypeNode × List Token)
  pArraySuffix : TypeNode → List Token →
    Except String (TypeNode × List Token)
  pBaseType : List Token → Except String (TypeNode × List Token)
  pTupleLoop : List (Option String × TypeNode) → List Token →
    Except String (List (Option String × TypeNode) × List Token)
  pMapType : List Token → Except String (TypeNode × List Token)
  pSetType : List Token → Except String (TypeNode × List Token)
  pEnumType : List Token → Except String (TypeNode × List Token)
  pEnumVariants : Option String →
    List (String × Option (List (String × TypeNode))) → List Token →
    Except String
      (List (String × Option (List (String × TypeNode))) × List Token)
  pStructFields : List Token →
    Except String (List (String × TypeNode) × List Token)
  pStructFieldsLoop : List (String × TypeNode) → List Token →
    Except String (List (String × TypeNode) × List Token)
  pStructType : List Token → Except String (TypeNode × List Token)
  pVectorType : List Token → Except String (TypeNode × List Token)
  pVectorComponents : List TypeNode → List Token →
    Except String (List TypeNode × List Token)

/-- Fuel-stratified family of the type-expression parsers; level `0`
fails with the fuel message, level `fuel + 1` runs each source method's
body with every recursive call taken at level `fuel`. -/
def typeParsers : Nat → TypeParsers
  | 0 =>
    { pType := fun _ => .error parserFuelMsg
      pUnionType := fun _ => .error parserFuelMsg
      pUnionLoop := fun _ _ => .error parserFuelMsg
      pOptionalType := fun _ => .error parserFuelMsg
      pArraySuffix := fun _ _ => .error parserFuelMsg
      pBaseType := fun _ => .error parserFuelMsg
      pTupleLoop := fun _ _ => .error parserFuelMsg
      pMapType := fun _ => .error parserFuelMsg
      pSetType := fun _ => .error parserFuelMsg
      pEnumType := fun _ => .error parserFuelMsg
      pEnumVariants := fun _ _ _ => .error parserFuelMsg
      pStructFields := fun _ => .error parserFuelMsg
      pStructFieldsLoop := fun _ _ => .error parserFuelMsg
      pStructType := fun _ => .error parserFuelMsg
      pVectorType := fun _ => .error parserFuelMsg
      pVectorComponents := fun _ _ => .error parserFuelMsg }
  | fuel + 1 =>
    let p := typeParsers fuel
    { pType := fun ts => p.pUnionType ts
      pUnionType := fun ts => do
        let (ty, ts₁) ← p.pOptionalType ts
        if checkT .PIPE ts₁ then do
          let (types, ts₂) ← p.pUnionLoop [ty] ts₁
          .ok (.union types, ts₂)
        else .ok (ty, ts₁)
      pUnionLoop := fun types ts =>
        if checkT .PIPE ts then do
          let (ty, ts₁) ← p.pOptionalType ts.tail
          p.pUnionLoop (types ++ [ty]) ts₁
        else .ok (types, ts)
      pOptionalType := fun ts => do
        let (baseType, ts₁) ← p.pBaseType ts
        let (suffixed, ts₂) ← p.pArraySuffix baseType ts₁
        if checkT .QUESTION ts₂ then .ok (.optional suffixed, ts₂.tail)
        else .ok (suffixed, ts₂)
      pArraySuffix := fun baseType ts =>
        if checkT .LEFT_BRACKET ts then do
          let ts₁ := ts.tail
          let (arrayConstraint, ts₂) :=
            if !checkT .RIGHT_BRACKET ts₁ then
              let r := parseRangeConstraintContent ts₁
              (some r.1, r.2)
            else (none, ts₁)
          let (_, ts₃) ← consume .RIGHT_BRACKET "Expected \"]\"" ts₂
          p.pArraySuffix (.array baseType arrayConstraint) ts₃
        else .ok (baseType, ts)
      pBaseType := fun ts =>
        if checkT .LEFT_PAREN ts then do
          let ts₁ := ts.tail
          let (elements, ts₂) ←
            if !checkT .RIGHT_PAREN ts₁ then p.pTupleLoop [] ts₁
            else pure ([], ts₁)
          let (_, ts₃) ← consume .RIGHT_PAREN "Expected \")\"" ts₂
          match elements with
          | [(name, ty)] =>
            if !optTruthy name then .ok (ty, ts₃)
            else .ok (.tuple elements, ts₃)
          | _ => .ok (.tuple elements, ts₃)
        else if checkT .MAP ts then p.pMapType ts
        else if checkT .SET ts then p.pSetType ts
        else if checkT .INSTANCE ts then parseInstanceType ts
        else if checkT .ENUM ts then p.pEnumType ts
        else if checkT .STRUCT ts then p.pStructType ts
        else if checkT .VECTOR ts || checkT .VECTOR2 ts ||
            checkT .VECTOR3 ts then p.pVectorType ts
        else if checkT .IDENTIFIER ts &&
            strStartsWith (peekT ts).value "Instance." then
          .ok (.instanceType (some (strDrop (peekT ts).value 9)), ts.tail)
        else if isPrimitiveType ts then parsePrimitiveType ts
        else
          let t := peekT ts
          .error
            s!"Unexpected token in type: '{tokenTypeName t.type}' at line {t.line}"
      pTupleLoop := fun elements ts =>
        let ts₁ := skipNewlines ts
        if checkT .RIGHT_PAREN ts₁ then .ok (elements, ts₁)
        else
          let hasName :=
            (match peekNextT ts₁ with
              | some t => t.type == .COLON
              | none => false) && isValidParameterName ts₁
          let name : Option String :=
            if hasName then some (peekT ts₁).value else none
          let ts₂ := if hasName then ts₁.tail.tail else ts₁
          match p.pType ts₂ with
          | .error e => .error e
          | .ok (elementType, ts₃) =>
            let elements' := elements ++ [(name, elementType)]
            let ts₄ := skipNewlines ts₃
            if !checkT .COMMA ts₄ then .ok (elements', ts₄)
            else
              let ts₅ := skipNewlines ts₄.tail
              if checkT .RIGHT_PAREN ts₅ then .ok (elements', ts₅)
              else p.pTupleLoop elements' ts₅
      pMapType := fun ts => do
        let (_, ts₁) ← consume .MAP "Expected \"map\"" ts
        let (_, ts₂) ← consume .LEFT_BRACE "Expected \"\x7b\"" ts₁
        let (_, ts₃) ← consume .LEFT_BRACKET "Expected \"[\"" ts₂
        let (keyType, ts₄) ← p.pType ts₃
        let (_, ts₅) ← consume .RIGHT_BRACKET "Expected \"]\"" ts₄
        let (_, ts₆) ← consume .COLON "Expected \":\"" ts₅
        let (valueType, ts₇) ← p.pType ts₆
        let (_, ts₈) ← consume .RIGHT_BRACE "Expected \"\x7d\"" ts₇
        .ok (.map keyType valueType, ts₈)
      pSetType := fun ts => do
        let (_, ts₁) ← consume .SET "Expected \"set\"" ts
        let (_, ts₂) ← consume .LEFT_BRACE "Expected \"\x7b\"" ts₁
        let (elementType, ts₃) ← p.pType ts₂
        let (_, ts₄) ← consume .RIGHT_BRACE "Expected \"\x7d\"" ts₃
        .ok (.set elementType, ts₄)
      pEnumType := fun ts => do
        let (_, ts₁) ← consume .ENUM "Expected \"enum\"" ts
        let (tagField, ts₂) :=
          if checkT .STRING_LITERAL ts₁ then
            (some (strDropRight (strDrop (peekT ts₁).value 1) 1), ts₁.tail)
          else (none, ts₁)
        let (_, ts₃) ← consume .LEFT_BRACE "Expected \"\x7b\"" ts₂
        let (variants, ts₄) ← p.pEnumVariants tagField [] ts₃
        let (_, ts₅) ← consume .RIGHT_BRACE "Expected \"\x7d\"" ts₄
        .ok (.enum tagField variants, ts₅)
      pEnumVariants := fun tagField variants ts =>
        if !(!checkT .RIGHT_BRACE ts && !isAtEnd ts) then .ok (variants, ts)
        else
          let ts₁ := skipNewlines ts
          if checkT .RIGHT_BRACE ts₁ then .ok (variants, ts₁)
          else do
            let (nameTok, ts₂) ←
              consume .IDENTIFIER "Expected variant name" ts₁
            let (fields, ts₃) ←
              if optTruthy tagField && checkT .LEFT_BRACE ts₂ then do
                let (fs, ts') ← p.pStructFields ts₂
                pure (some fs, ts')
              else pure (none, ts₂)
            let variants' := variants ++ [(nameTok.value, fields)]
            if checkT .COMMA ts₃ then
              let ts₄ := skipNewlines ts₃.tail
              if checkT .RIGHT_BRACE ts₄ then .ok (variants', ts₄)
              else p.pEnumVariants tagField variants' (skipNewlines ts₄)
            else p.pEnumVariants tagField variants' (skipNewlines ts₃)
      pStructFields := fun ts => do
        let (_, ts₁) ← consume .LEFT_BRACE "Expected \"\x7b\"" ts
        let (fields, ts₂) ← p.pStructFieldsLoop [] ts₁
        let (_, ts₃) ← consume .RIGHT_BRACE "Expected \"\x7d\"" ts₂
        .ok (fields, ts₃)
      pStructFieldsLoop := fun fields ts =>
        if !(!checkT .RIGHT_BRACE ts && !isAtEnd ts) then .ok (fields, ts)
        else
          let ts₁ := skipNewlines ts
          if checkT .RIGHT_BRACE ts₁ then .ok (fields, ts₁)
          else do
            let (nameTok, ts₂) ← consume .IDENTIFIER "Expected field name" ts₁
            let (_, ts₃) ← consume .COLON "Expected \":\"" ts₂
            let (fieldType, ts₄) ← p.pType ts₃
            let fields' := fields ++ [(nameTok.value, fieldType)]
            if checkT .COMMA ts₄ then
              let ts₅ := skipNewlines ts₄.tail
              if checkT .RIGHT_BRACE ts₅ then .ok (fields', ts₅)
              else p.pStructFieldsLoop fields' (skipNewlines ts₅)
            else p.pStructFieldsLoop fields' (skipNewlines ts₄)
      pStructType := fun ts => do
        let (_, ts₁) ← consume .STRUCT "Expected \"struct\"" ts
        let (fields, ts₂) ← p.pStructFields ts₁
        .ok (.struct fields, ts₂)
      pVectorType := fun ts =>
        let ts₁ := ts.tail
        if checkT .LEFT_PAREN ts₁ then do
          let ts₂ := ts₁.tail
          let (components, ts₃) ←
            if !checkT .RIGHT_PAREN ts₂ then p.pVectorComponents [] ts₂
            else pure ([], ts₂)
          let (_, ts₄) ← consume .RIGHT_PAREN "Expected \")\"" ts₃
          .ok (.vector (some components), ts₄)
        else .ok (.vector none, ts₁)
      pVectorComponents := fun components ts => do
        let (ty, ts₁) ← p.pType ts
        let components' := components ++ [ty]
        if !checkT .COMMA ts₁ then .ok (components', ts₁)
        else
          let ts₂ := ts₁.tail
          if checkT .RIGHT_PAREN ts₂ then .ok (components', ts₂)
          else p.pVectorComponents components' ts₂ }

/-- The parser's `parseType` (entry of the type-expression grammar). -/
def parseType (fuel : Nat) (ts : List Token) :
    Except String (TypeNode × List Token) :=
  (typeParsers fuel).pType ts

/-- The parser's `parseUnionType`: pipe-separated optional types,
collapsing a singleton to the type itself. -/
def parseUnionType (fuel : Nat) (ts : List Token) :
    Except String (TypeNode × List Token) :=
  (typeParsers fuel).pUnionType ts

/-- Loop of `parseUnionType`: consume `| optional-type` repeatedly. -/
def unionLoop (fuel : Nat) (types : List TypeNode) (ts : List Token) :
    Except String (List TypeNode × List Token) :=
  (typeParsers fuel).pUnionLoop types ts

/-- The parser's `parseOptionalType`: base type, zero or more bracketed
array suffixes, then an optional trailing question mark. -/
def parseOptionalType (fuel : Nat) (ts : List Token) :
    Except String (TypeNode × List Token) :=
  (typeParsers fuel).pOptionalType ts

/-- Array-suffix loop of `parseOptionalType`. -/
def arraySuffixLoop (fuel : Nat) (baseType : TypeNode) (ts : List Token) :
    Except String (TypeNode × List Token) :=
  (typeParsers fuel).pArraySuffix baseType ts

/-- The parser's `parseBaseType`: dispatch on the current token among
parenthesized tuples, `map`, `set`, `Instance`, `enum`, `struct`,
vectors, dotted `Instance.X` identifiers and primitives. -/
def parseBaseType (fuel : Nat) (ts : List Token) :
    Except String (TypeNode × List Token) :=
  (typeParsers fuel).pBaseType ts

/-- Tuple-element loop of `parseBaseType`: optionally named elements,
comma separated with trailing-comma tolerance. -/
def tupleLoop (fuel : Nat) (elements : List (Option String × TypeNode))
    (ts : List Token) :
    Except String (List (Option String × TypeNode) × List Token) :=
  (typeParsers fuel).pTupleLoop elements ts

/-- The parser's `parseMapType`: `map { [K]: V }`. -/
def parseMapType (fuel : Nat) (ts : List Token) :
    Except String (TypeNode × List Token) :=
  (typeParsers fuel).pMapType ts

/-- The parser's `parseSetType`: `set { T }`. -/
def parseSetType (fuel : Nat) (ts : List Token) :
    Except String (TypeNode × List Token) :=
  (typeParsers fuel).pSetType ts

/-- The parser's `parseEnumType`: optionally tagged enum with variants;
variant struct payloads are parsed only under a truthy tag. -/
def parseEnumType (fuel : Nat) (ts : List Token) :
    Except String (TypeNode × List Token) :=
  (typeParsers fuel).pEnumType ts

/-- Variant loop of `parseEnumType`. -/
def enumVariantsLoop (fuel : Nat) (tagField : Option String)
    (variants : List (String × Option (List (String × TypeNode))))
    (ts : List Token) :
    Except String
      (List (String × Option (List (String × TypeNode))) × List Token) :=
  (typeParsers fuel).pEnumVariants tagField variants ts

/-- The parser's `parseStructFields`: braced name/type field list with
newline and trailing-comma tolerance. -/
def parseStructFields (fuel : Nat) (ts : List Token) :
    Except String (List (String × TypeNode) × List Token) :=
  (typeParsers fuel).pStructFields ts

/-- Field loop of `parseStructFields`. -/
def structFieldsLoop (fuel : Nat) (fields : List (String × TypeNode))
    (ts : List Token) :
    Except String (List (String × TypeNode) × List Token) :=
  (typeParsers fuel).pStructFieldsLoop fields ts

/-- The parser's `parseStructType`: `struct` keyword plus fields. -/
def parseStructType (fuel : Nat) (ts : List Token) :
    Except String (TypeNode × List Token) :=
  (typeParsers fuel).pStructType ts

/-- The parser's `parseVectorType`: `vector`/`Vector2`/`Vector3` with an
optional parenthesized component list. -/
def parseVectorType (fuel : Nat) (ts : List Token) :
    Except String (TypeNode × List Token) :=
  (typeParsers fuel).pVectorType ts

/-- Component loop of `parseVectorType`. -/
def vectorComponentsLoop (fuel : Nat) (components : List TypeNode)
    (ts : List Token) :
    Except String (List TypeNode × List Token) :=
  (typeParsers fuel).pVectorComponents components ts

/-- Separator step after an event / function property: consume a comma
only if one is present, then skip newlines. -/
def propertySeparator (ts : List Token) : List Token :=
  skipNewlines (if checkT .COMMA ts then ts.tail else ts)

/-- Property loop of `parseEvent`: `from`, `type`, `call` take identifier
values, `data` a type expression; any other key is fatal. -/
def eventPropsLoop : Nat → EventProperties → List Token →
    Except String (EventProperties × List Token)
  | 0, _, _ => .error parserFuelMsg
  | fuel + 1, properties, ts =>
    if !(!checkT .RIGHT_BRACE ts && !isAtEnd ts) then .ok (properties, ts)
    else
      let ts₁ := skipNewlines ts
      if checkT .RIGHT_BRACE ts₁ then .ok (properties, ts₁)
      else do
        let (propertyName, ts₂) ← consumePropertyName ts₁
        let (_, ts₃) ← consume .COLON "Expected \":\"" ts₂
        match propertyName with
        | "call" => do
          let (v, ts₄) ← consumeIdentifierValue ts₃
          eventPropsLoop fuel { properties with call := some v }
            (propertySeparator ts₄)
        | "data" => do
          let (d, ts₄) ← parseType fuel ts₃
          eventPropsLoop fuel { properties with data := some d }
            (propertySeparator ts₄)
        | "from" => do
          let (v, ts₄) ← consumeIdentifierValue ts₃
          eventPropsLoop fuel { properties with from_ := some v }
            (propertySeparator ts₄)
        | "type" => do
          let (v, ts₄) ← consumeIdentifierValue ts₃
          eventPropsLoop fuel { properties with type := some v }
            (propertySeparator ts₄)
        | _ => .error s!"Unknown event property: {propertyName}"

/-- The parser's `parseEvent`: `event Name = { properties }` with
newlines allowed after the equals sign. -/
def parseEvent : Nat → List Token →
    Except String ((String × EventProperties) × List Token)
  | 0, _ => .error parserFuelMsg
  | fuel + 1, ts => do
    let (_, ts₁) ← consume .EVENT "Expected \"event\"" ts
    let (nameTok, ts₂) ← consume .IDENTIFIER "Expected event name" ts₁
    let (_, ts₃) ← consume .EQUALS "Expected \"=\"" ts₂
    let ts₄ := skipNewlines ts₃
    let (_, ts₅) ← consume .LEFT_BRACE "Expected \"\x7b\"" ts₄
    let (properties, ts₆) ← eventPropsLoop fuel {} ts₅
    let (_, ts₇) ← consume .RIGHT_BRACE "Expected \"\x7d\"" ts₆
    .ok ((nameTok.value, properties), ts₇)

/-- Property loop of `parseFunction`: `call` takes an identifier value,
`args` and `rets` type expressions; any other key is fatal. -/
def functionPropsLoop : Nat → FunctionProperties → List Token →
    Except String (FunctionProperties × List Token)
  | 0, _, _ => .error parserFuelMsg
  | fuel + 1, properties, ts =>
    if !(!checkT .RIGHT_BRACE ts && !isAtEnd ts) then .ok (properties, ts)
    else
      let ts₁ := skipNewlines ts
      if checkT .RIGHT_BRACE ts₁ then .ok (properties, ts₁)
      else do
        let (propertyName, ts₂) ← consumePropertyName ts₁
        let (_, ts₃) ← consume .COLON "Expected \":\"" ts₂
        match propertyName with
        | "args" => do
          let (d, ts₄) ← parseType fuel ts₃
          functionPropsLoop fuel { properties with args := some d }
            (propertySeparator ts₄)
        | "call" => do
          let (v, ts₄) ← consumeIdentifierValue ts₃
          functionPropsLoop fuel { properties with call := some v }
            (propertySeparator ts₄)
        | "rets" => do
          let (d, ts₄) ← parseType fuel ts₃
          functionPropsLoop fuel { properties with rets := some d }
            (propertySeparator ts₄)
        | _ => .error s!"Unknown function property: {propertyName}"

/-- The parser's `parseFunction`: `funct Name = { properties }`. -/
def parseFunction : Nat → List Token →
    Except String ((String × FunctionProperties) × List Token)
  | 0, _ => .error parserFuelMsg
  | fuel + 1, ts => do
    let (_, ts₁) ← consume .FUNCT "Expected \"funct\"" ts
    let (nameTok, ts₂) ← consume .IDENTIFIER "Expected function name" ts₁
    let (_, ts₃) ← consume .EQUALS "Expected \"=\"" ts₂
    let ts₄ := skipNewlines ts₃
    let (_, ts₅) ← consume .LEFT_BRACE "Expected \"\x7b\"" ts₄
    let (properties, ts₆) ← functionPropsLoop fuel {} ts₅
    let (_, ts₇) ← consume .RIGHT_BRACE "Expected \"\x7d\"" ts₆
    .ok ((nameTok.value, properties), ts₇)

/-- The parser's `parseComment`. -/
def parseComment (ts : List Token) : Except String (String × List Token) := do
  let (token, ts₁) ← consume .COMMENT "Expected comment" ts
  .ok (token.value, ts₁)

/-- Member loop of `parseNamespace`: comments, events and functions
only. -/
def namespaceMembersLoop : Nat → List Member → List Token →
    Except String (List Member × List Token)
  | 0, _, _ => .error parserFuelMsg
  | fuel + 1, members, ts =>
    if !(!checkT .RIGHT_BRACE ts && !isAtEnd ts) then .ok (members, ts)
    else
      let ts₁ := skipNewlines ts
      if checkT .RIGHT_BRACE ts₁ then .ok (members, ts₁)
      else if checkT .COMMENT ts₁ then do
        let (c, ts₂) ← parseComment ts₁
        namespaceMembersLoop fuel (members ++ [.comment c]) (skipNewlines ts₂)
      else if checkT .EVENT ts₁ then do
        let ((n, p), ts₂) ← parseEvent fuel ts₁
        namespaceMembersLoop fuel (members ++ [.event n p]) (skipNewlines ts₂)
      else if checkT .FUNCT ts₁ then do
        let ((n, p), ts₂) ← parseFunction fuel ts₁
        namespaceMembersLoop fuel (members ++ [.function n p])
          (skipNewlines ts₂)
      else
        .error
          s!"Unexpected token in namespace: '{tokenTypeName (peekT ts₁).type}'"

/-- The parser's `parseNamespace`: `namespace Name = { members }`. -/
def parseNamespace : Nat → List Token →
    Except String ((String × List Member) × List Token)
  | 0, _ => .error parserFuelMsg
  | fuel + 1, ts => do
    let (_, ts₁) ← consume .NAMESPACE "Expected \"namespace\"" ts
    let (nameTok, ts₂) ← consume .IDENTIFIER "Expected namespace name" ts₁
    let (_, ts₃) ← consume .EQUALS "Expected \"=\"" ts₂
    let ts₄ := skipNewlines ts₃
    let (_, ts₅) ← consume .LEFT_BRACE "Expected \"\x7b\"" ts₄
    let (members, ts₆) ← namespaceMembersLoop fuel [] ts₅
    let (_, ts₇) ← consume .RIGHT_BRACE "Expected \"\x7d\"" ts₆
    .ok ((nameTok.value, members), ts₇)

/-- The parser's `parseOption`: `opt key = value` with string, number,
boolean or bare-identifier value. -/
def parseOption (ts : List Token) : Except String (OptionNode × List Token) := do
  let (_, ts₁) ← consume .OPT "Expected \"opt\"" ts
  let (keyTok, ts₂) ← consume .IDENTIFIER "Expected option key" ts₁
  let (_, ts₃) ← consume .EQUALS "Expected \"=\"" ts₂
  if checkT .STRING_LITERAL ts₃ then
    .ok (⟨keyTok.value, .string (peekT ts₃).value⟩, ts₃.tail)
  else if checkT .NUMBER_LITERAL ts₃ then
    .ok (⟨keyTok.value, .number (parseFloatQ (peekT ts₃).value)⟩, ts₃.tail)
  else if checkT .BOOLEAN_LITERAL ts₃ then
    .ok (⟨keyTok.value, .boolean ((peekT ts₃).value == "true")⟩, ts₃.tail)
  else if checkT .IDENTIFIER ts₃ then
    .ok (⟨keyTok.value, .string (peekT ts₃).value⟩, ts₃.tail)
  else .error s!"Expected value for option \"{keyTok.value}\""

/-- The parser's `parseTypeDefinition`: `type Name = type-expression`. -/
def parseTypeDefinition : Nat → List Token →
    Except String ((String × TypeNode) × List Token)
  | 0, _ => .error parserFuelMsg
  | fuel + 1, ts => do
    let (_, ts₁) ← consume .TYPE "Expected \"type\"" ts
    let (nameTok, ts₂) ← consume .IDENTIFIER "Expected type name" ts₁
    let (_, ts₃) ← consume .EQUALS "Expected \"=\"" ts₂
    let (definition, ts₄) ← parseType fuel ts₃
    .ok ((nameTok.value, definition), ts₄)

/-- Top-level loop of `parse`: dispatch on the next token, appending
options to the options list and everything else to the items list. -/
def parseGo : Nat → List Token → List OptionNode → List Item →
    Except String ZapConfig
  | 0, _, _, _ => .error parserFuelMsg
  | fuel + 1, ts, options, items =>
    let ts₁ := skipNewlines ts
    if isAtEnd ts₁ then .ok ⟨items, options⟩
    else
      match (peekT ts₁).type with
      | .COMMENT =>
        match parseComment ts₁ with
        | .error e => .error e
        | .ok (c, ts₂) =>
          parseGo fuel (skipNewlines ts₂) options (items ++ [.comment c])
      | .EVENT =>
        match parseEvent fuel ts₁ with
        | .error e => .error e
        | .ok ((n, p), ts₂) =>
          parseGo fuel (skipNewlines ts₂) options (items ++ [.event n p])
      | .FUNCT =>
        match parseFunction fuel ts₁ with
        | .error e => .error e
        | .ok ((n, p), ts₂) =>
          parseGo fuel (skipNewlines ts₂) options (items ++ [.function n p])
      | .NAMESPACE =>
        match parseNamespace fuel ts₁ with
        | .error e => .error e
        | .ok ((n, ms), ts₂) =>
          parseGo fuel (skipNewlines ts₂) options
            (items ++ [.namespaceDecl n ms])
      | .OPT =>
        match parseOption ts₁ with
        | .error e => .error e
        | .ok (o, ts₂) =>
          parseGo fuel (skipNewlines ts₂) (options ++ [o]) items
      | .TYPE =>
        match parseTypeDefinition fuel ts₁ with
        | .error e => .error e
        | .ok ((n, d), ts₂) =>
          parseGo fuel (skipNewlines ts₂) options
            (items ++ [.typeDefinition n d])
      | t =>
        .error
          s!"Unexpected token '{tokenTypeName t}' at line {(peekT ts₁).line}"

/-- Fuel budget of the recursive-descent parser. -/
def parserFuel (ts : List Token) : Nat := 10 * ts.length + 10

/-- The parser's `parse` entry point (whitespace tokens are filtered out
before parsing, as in the class constructor). -/
def parse (tokens : List Token) : Except String ZapConfig :=
  let ts := tokens.filter (fun t => t.type ≠ .WHITESPACE)
  parseGo (parserFuel ts) ts [] []

/-- A top-level declaration in physical source order: an option or an
item. -/
inductive TopDecl where
  | optionDecl (option : OptionNode)
  | itemDecl (item : Item)

/-- Options of a merged declaration stream, in order. -/
def collectOptions : List TopDecl → List OptionNode
  | [] => []
  | .optionDecl o :: ds => o :: collectOptions ds
  | .itemDecl _ :: ds => collectOptions ds

/-- Items of a merged declaration stream, in order. -/
def collectItems : List TopDecl → List Item
  | [] => []
  | .optionDecl _ :: ds => collectItems ds
  | .itemDecl i :: ds => i :: collectItems ds

/-- Modelled from the spec: reference top-level loop that collects the
parsed declarations in their physical source order into a single merged
stream (options and items interleaved as they appear), used to state
order preservation of `parse`. -/
def mergedTopLevelGo : Nat → List Token → Except String (List TopDecl)
  | 0, _ => .error parserFuelMsg
  | fuel + 1, ts =>
    let ts₁ := skipNewlines ts
    if isAtEnd ts₁ then .ok []
    else
      match (peekT ts₁).type with
      | .COMMENT =>
        match parseComment ts₁ with
        | .error e => .error e
        | .ok (c, ts₂) =>
          match mergedTopLevelGo fuel (skipNewlines ts₂) with
          | .error e => .error e
          | .ok ds => .ok (.itemDecl (.comment c) :: ds)
      | .EVENT =>
        match parseEvent fuel ts₁ with
        | .error e => .error e
        | .ok ((n, p), ts₂) =>
          match mergedTopLevelGo fuel (skipNewlines ts₂) with
          | .error e => .error e
          | .ok ds => .ok (.itemDecl (.event n p) :: ds)
      | .FUNCT =>
        match parseFunction fuel ts₁ with
        | .error e => .error e
        | .ok ((n, p), ts₂) =>
          match mergedTopLevelGo fuel (skipNewlines ts₂) with
          | .error e => .error e
          | .ok ds => .ok (.itemDecl (.function n p) :: ds)
      | .NAMESPACE =>
        match parseNamespace fuel ts₁ with
        | .error e => .error e
        | .ok ((n, ms), ts₂) =>
          match mergedTopLevelGo fuel (skipNewlines ts₂) with
          | .error e => .error e
          | .ok ds => .ok (.itemDecl (.namespaceDecl n ms) :: ds)
      | .OPT =>
        match parseOption ts₁ with
        | .error e => .error e
        | .ok (o, ts₂) =>
          match mergedTopLevelGo fuel (skipNewlines ts₂) with
          | .error e => .error e
          | .ok ds => .ok (.optionDecl o :: ds)
      | .TYPE =>
        match parseTypeDefinition fuel ts₁ with
        | .error e => .error e
        | .ok ((n, d), ts₂) =>
          match mergedTopLevelGo fuel (skipNewlines ts₂) with
          | .error e => .error e
          | .ok ds => .ok (.itemDecl (.typeDefinition n d) :: ds)
      | t =>
        .error
          s!"Unexpected token '{tokenTypeName t}' at line {(peekT ts₁).line}"

/-- Modelled from the spec: entry point of the merged reference loop,
with the same whitespace filtering and fuel budget as `parse`. -/
def mergedTopLevel (tokens : List Token) : Except String (List TopDecl) :=
  let ts := tokens.filter (fun t => t.type ≠ .WHITESPACE)
  mergedTopLevelGo (parserFuel ts) ts

end ZapParser

namespace ZapFormatter

/-- The formatter's inline-rendering width budget. -/
def WIDTH_THRESHOLD : Nat := 120

/-- Test of the formatter's `ALPHANUMERIC_REGEX` (`[^a-zA-Z0-9_]`): the
string contains some character outside the word-character class. -/
def hasNonWordChar (s : String) : Bool :=
  s.data.any fun c =>
    !(('a' ≤ c ∧ c ≤ 'z') ∨ ('A' ≤ c ∧ c ≤ 'Z') ∨
      ('0' ≤ c ∧ c ≤ '9') ∨ c = '_' : Bool)

/-- The formatter's `getIndent`: one tab per indentation level. -/
def getIndent (level : Nat) : String := String.mk (List.replicate level '\t')

/-- Zero-padded decimal rendering of a natural number to width `k`. -/
def natDigitsPad (n k : Nat) : String :=
  let s := toString n
  String.mk (List.replicate (k - s.length) '0') ++ s

/-- The host language's number-to-string conversion, modelled on the
rationals produced by `parseFloatQ` (shortest decimal expansion; the
fallback fraction rendering is unreachable for parsed values). -/
def jsNumToString (q : ℚ) : String :=
  if q.den = 1 then toString q.num
  else
    let sign := if q < 0 then "-" else ""
    let n := q.num.natAbs
    let d := q.den
    match (List.range (d + 1)).find? (fun k => d ∣ 10 ^ k) with
    | some k =>
      let scaled := n * 10 ^ k / d
      sign ++ toString (scaled / 10 ^ k) ++ "." ++
        natDigitsPad (scaled % 10 ^ k) k
    | none => sign ++ toString n ++ "/" ++ toString d

/-- The formatter's `formatRangeConstraint`: equal bounds collapse to a
single number, missing bounds leave their side of `..` empty. -/
def formatRangeConstraint (rangeConstraint : RangeConstraint) : String :=
  match rangeConstraint.min, rangeConstraint.max with
  | some mn, some mx =>
    if mn = mx then jsNumToString mn
    else jsNumToString mn ++ ".." ++ jsNumToString mx
  | some mn, none => jsNumToString mn ++ ".."
  | none, some mx => ".." ++ jsNumToString mx
  | none, none => ".."

/-- The formatter's `formatConstraint`: parenthesized range. -/
def formatConstraint (rangeConstraint : RangeConstraint) : String :=
  "(" ++ formatRangeConstraint rangeConstraint ++ ")"

/-- The formatter's `formatOptionValue`: strings already wrapped in
quotes pass verbatim, strings with a non-word character (and no open
paren) get quoted, everything else renders bare. -/
def formatOptionValue (value : OptionValue) : String :=
  match value with
  | .string v =>
    if strStartsWith v "\"" && strEndsWith v "\"" then v
    else if hasNonWordChar v && !(strContainsChar v '(') then "\"" ++ v ++ "\""
    else v
  | .boolean b => if b then "true" else "false"
  | .number n => jsNumToString n

/-- The formatter's `formatOption`. -/
def formatOption (optionNode : OptionNode) : String :=
  "opt " ++ optionNode.key ++ " = " ++ formatOptionValue optionNode.value

/-- Indented, comma-separated lines (trailing comma on all but the
last), shared by multi-line struct, tuple and enum renderings. -/
def commaSeparatedLines (pre : String) : List String → List String
  | [] => []
  | [s] => [pre ++ s]
  | s :: rest => (pre ++ s ++ ",") :: commaSeparatedLines pre rest

/-- Single-line struct candidate over pre-rendered field strings. -/
def structInline (fieldStrs : List String) : String :=
  "struct \x7b" ++ String.intercalate ", " fieldStrs ++ "\x7d"

/-- Multi-line struct rendering over pre-rendered field strings (one
tab-indented field per line). -/
def structMultiline (fieldStrs : List String) : String :=
  String.intercalate "\n"
    ("struct \x7b" :: commaSeparatedLines "\t" fieldStrs ++ ["\x7d"])

/-- Single-line tuple candidate over pre-rendered element strings. -/
def tupleInline (elementStrs : List String) : String :=
  "(" ++ String.intercalate ", " elementStrs ++ ")"

/-- Multi-line tuple rendering over pre-rendered element strings (one
element per line at the inner indent, closing paren at the outer). -/
def tupleMultiline (level : Nat) (elementStrs : List String) : String :=
  String.intercalate "\n"
    ("(" :: commaSeparatedLines (getIndent (level + 1)) elementStrs ++
      [getIndent level ++ ")"])

/-- Single-line enum candidate over the variant names. -/
def enumInline (variantNames : List String) : String :=
  "enum \x7b" ++ String.intercalate ", " variantNames ++ "\x7d"

mutual

/-- The formatter's `formatType` dispatch (the `level` parameter models
the class's `indentLevel` counter, only consulted by multi-line
tuples). -/
def formatType (level : Nat) : TypeNode → String
  | .primitive name constraint =>
    name ++
      (match constraint with
        | some rc => formatConstraint rc
        | none => "")
  | .array elementType constraint =>
    formatType level elementType ++ "[]" ++
      (match constraint with
        | some rc => formatRangeConstraint rc
        | none => "")
  | .map keyType valueType =>
    "map \x7b[" ++ formatType level keyType ++ "]: " ++
      formatType level valueType ++ "\x7d"
  | .set elementType => "set \x7b" ++ formatType level elementType ++ "\x7d"
  | .optional innerType => formatType level innerType ++ "?"
  | .union types => String.intercalate " | " (formatTypeList level types)
  | .instanceType className =>
    "Instance" ++
      (if optTruthy className then "." ++ className.getD "" else "")
  | .tuple elements => formatTupleType level elements
  | .struct fields => formatStructType level fields
  | .enum tagField variants => formatEnumType level tagField variants
  | .vector components =>
    match components with
    | some cs =>
      "vector(" ++ String.intercalate ", " (formatTypeList level cs) ++ ")"
    | none => "Vector3"

/-- Renders each type of a list (union members, vector components). -/
def formatTypeList (level : Nat) : List TypeNode → List String
  | [] => []
  | t :: rest => formatType level t :: formatTypeList level rest

/-- Renders each struct field as `name: Type`. -/
def formatFieldStrs (level : Nat) : List (String × TypeNode) → List String
  | [] => []
  | (name, ty) :: rest =>
    (name ++ ": " ++ formatType level ty) :: formatFieldStrs level rest

/-- Renders each tuple element as `name: Type` or bare `Type`. -/
def formatElementStrs (level : Nat) :
    List (Option String × TypeNode) → List String
  | [] => []
  | (name, ty) :: rest =>
    (if optTruthy name then name.getD "" ++ ": " ++ formatType level ty
      else formatType level ty) :: formatElementStrs level rest

/-- The formatter's `formatStructType`: inline when the single-line
candidate fits the width budget, multi-line otherwise. -/
def formatStructType (level : Nat) (fields : List (String × TypeNode)) :
    String :=
  let fieldStrs := formatFieldStrs level fields
  if (structInline fieldStrs).length ≤ WIDTH_THRESHOLD then
    structInline fieldStrs
  else structMultiline fieldStrs

/-- The formatter's `formatTupleType`: inline when the single-line
candidate fits the width budget, multi-line otherwise. -/
def formatTupleType (level : Nat)
    (elements : List (Option String × TypeNode)) : String :=
  let elementStrs := formatElementStrs level elements
  if (tupleInline elementStrs).length ≤ WIDTH_THRESHOLD then
    tupleInline elementStrs
  else tupleMultiline level elementStrs

/-- The formatter's `formatEnumType`: an untagged enum without variant
payloads tries the inline form under the width budget; otherwise one
variant per line, with a blank line after a payload-carrying variant of
a tagged enum (except the last). -/
def formatEnumType (level : Nat) (tagField : Option String)
    (variants : List (String × Option (List (String × TypeNode)))) :
    String :=
  let tagged := optTruthy tagField
  let result := "enum" ++
    (if tagged then " \"" ++ tagField.getD "" ++ "\"" else "")
  if !tagged && !(variants.any fun v => v.2.isSome) then
    let inlineFormat :=
      result ++ " \x7b" ++
        String.intercalate ", " (variants.map fun v => v.1) ++ "\x7d"
    if inlineFormat.length ≤ WIDTH_THRESHOLD then inlineFormat
    else
      String.intercalate "\n"
        ((result ++ " \x7b") :: enumVariantLines level tagged variants ++
          ["\x7d"])
  else
    String.intercalate "\n"
      ((result ++ " \x7b") :: enumVariantLines level tagged variants ++
        ["\x7d"])

/-- Variant lines of a multi-line enum rendering. -/
def enumVariantLines (level : Nat) (tagged : Bool) :
    List (String × Option (List (String × TypeNode))) → List String
  | [] => []
  | (name, fields) :: rest =>
    let variantLine := "\t" ++ name ++
      (match fields with
        | some fs => " " ++ formatStructType level fs
        | none => "") ++
      (if !rest.isEmpty then "," else "")
    variantLine ::
      ((if tagged && fields.isSome && !rest.isEmpty then [""] else []) ++
        enumVariantLines level tagged rest)

end

/-- The formatter's `formatEvent`: always block form, properties in the
canonical order `from`, `type`, `call`, `data`. -/
def formatEvent (level : Nat) (name : String)
    (properties : EventProperties) : String :=
  let indent := getIndent level
  let propertyIndent := getIndent (level + 1)
  String.intercalate "\n"
    ([indent ++ "event " ++ name ++ " = \x7b"] ++
      (if optTruthy properties.from_ then
        [propertyIndent ++ "from: " ++ properties.from_.getD "" ++ ","]
      else []) ++
      (if optTruthy properties.type then
        [propertyIndent ++ "type: " ++ properties.type.getD "" ++ ","]
      else []) ++
      (if optTruthy properties.call then
        [propertyIndent ++ "call: " ++ properties.call.getD "" ++ ","]
      else []) ++
      (match properties.data with
        | some d =>
          [propertyIndent ++ "data: " ++ formatType (level + 1) d ++ ","]
        | none => []) ++
      [indent ++ "\x7d"])

/-- The formatter's `formatFunction`: always block form, properties in
the canonical order `call`, `args`, `rets`. -/
def formatFunction (level : Nat) (name : String)
    (properties : FunctionProperties) : String :=
  let indent := getIndent level
  let propertyIndent := getIndent (level + 1)
  String.intercalate "\n"
    ([indent ++ "funct " ++ name ++ " = \x7b"] ++
      (if optTruthy properties.call then
        [propertyIndent ++ "call: " ++ properties.call.getD "" ++ ","]
      else []) ++
      (match properties.args with
        | some d =>
          [propertyIndent ++ "args: " ++ formatType (level + 1) d ++ ","]
        | none => []) ++
      (match properties.rets with
        | some d =>
          [propertyIndent ++ "rets: " ++ formatType (level + 1) d ++ ","]
        | none => []) ++
      [indent ++ "\x7d"])

/-- The formatter's `COMMENT_REGEX` replacement (`^--` rewritten to
`--`, an identity safeguard). -/
def normalizeComment (text : String) : String :=
  if strStartsWith text "--" then "--" ++ strDrop text 2 else text

/-- Renders a namespace member at the given level (comments render as
their text; the namespace loop adds their indentation). -/
def formatMember (level : Nat) : Member → String
  | .comment text => text
  | .event name properties => formatEvent level name properties
  | .function name properties => formatFunction level name properties

/-- Whether a member is a comment. -/
def isCommentMember : Member → Bool
  | .comment _ => true
  | _ => false

/-- Body lines of a namespace rendering: each member's lines, and a
blank separator after a member unless it is a comment immediately
followed by another comment. -/
def namespaceBodyLines (level : Nat) : List Member → List String
  | [] => []
  | member :: rest =>
    let formatted := formatMember (level + 1) member
    let line :=
      match member with
      | .comment text => getIndent (level + 1) ++ normalizeComment text
      | _ => formatted
    line ::
      ((if !rest.isEmpty &&
            (!isCommentMember member ||
              !(match rest.head? with
                | some m => isCommentMember m
                | none => false)) then [""]
        else []) ++ namespaceBodyLines level rest)

/-- The formatter's `formatNamespace`. -/
def formatNamespace (level : Nat) (name : String) (members : List Member) :
    String :=
  let indent := getIndent level
  String.intercalate "\n"
    ((indent ++ "namespace " ++ name ++ " = \x7b") ::
      namespaceBodyLines level members ++ [indent ++ "\x7d"])

/-- The formatter's `formatTypeDefinition`. -/
def formatTypeDefinition (level : Nat) (name : String)
    (definition : TypeNode) : String :=
  getIndent level ++ "type " ++ name ++ " = " ++ formatType level definition

/-- The formatter's `formatItem` dispatch. -/
def formatItem (level : Nat) : Item → String
  | .comment text => text
  | .event name properties => formatEvent level name properties
  | .function name properties => formatFunction level name properties
  | .namespaceDecl name members => formatNamespace level name members
  | .typeDefinition name definition =>
    formatTypeDefinition level name definition

/-- Whether an item is a comment. -/
def isCommentItem : Item → Bool
  | .comment _ => true
  | _ => false

/-- Item segment of the top-level rendering: each item's rendering, and
a blank separator after every non-last, non-comment item. -/
def itemsSegs : List Item → List String
  | [] => []
  | item :: rest =>
    formatItem 0 item ::
      ((if !rest.isEmpty && !isCommentItem item then [""] else []) ++
        itemsSegs rest)

/-- The formatter's `format`: options one per entry, a blank separator
when both options and items are present, then the item segment; all
joined by newlines. -/
def format (zapConfigurationNode : ZapConfig) : String :=
  let optionLines :=
    if zapConfigurationNode.options.length > 0 then
      zapConfigurationNode.options.map formatOption ++
        (if zapConfigurationNode.items.length > 0 then [""] else [])
    else []
  String.intercalate "\n" (optionLines ++ itemsSegs zapConfigurationNode.items)

end ZapFormatter

/-- Result of `validate`. -/
inductive ValidationResult where
  | valid
  | invalid (error : String)
  deriving DecidableEq, Repr

/-- The package's `format` entry point: tokenize, parse and format,
wrapping any internal error message. -/
def format (input : String) : Except String String :=
  match ZapLexer.tokenize input with
  | .error e => .error ("Zap formatting error: " ++ e)
  | .ok tokens =>
    match ZapParser.parse tokens with
    | .error e => .error ("Zap formatting error: " ++ e)
    | .ok zapConfigurationNode =>
      .ok (ZapFormatter.format zapConfigurationNode)

/-- The package's `validate` entry point: lex and parse only, capturing
any internal error message into the result. -/
def validate (input : String) : ValidationResult :=
  match ZapLexer.tokenize input with
  | .error e => .invalid e
  | .ok tokens =>
    match ZapParser.parse tokens with
    | .error e => .invalid e
    | .ok _ => .valid

/-- Line and column at end of input: fold the lexer's position step over
every character, starting from line 1, column 1. -/
def lineColEnd (s : String) : Nat × Nat :=
  s.data.foldl ZapLexer.stepLC (1, 1)

namespace ZapFormatter

/-- Rendering of a single namespace member line (comments re-indented
and normalized, other members rendered at the inner level). -/
def renderNsMember (level : Nat) : Member → String
  | .comment text => getIndent (level + 1) ++ normalizeComment text
  | m => formatMember (level + 1) m

/-- Modelled from the spec: namespace body lines with the pairwise
blank-line rule stated directly on consecutive members — a blank line
separates every pair of consecutive members except when both members of
the pair are comments. -/
def nsSeparatedSpec (level : Nat) : List Member → List String
  | [] => []
  | [m] => [renderNsMember level m]
  | m₁ :: m₂ :: rest =>
    renderNsMember level m₁ ::
      ((if isCommentMember m₁ && isCommentMember m₂ then [] else [""]) ++
        nsSeparatedSpec level (m₂ :: rest))

end ZapFormatter

end Zap

open Zap

theorem skipNewlines_replicate (nl : Token) (hnl : nl.type = .NEWLINE) :
    ∀ (n : Nat) (ts : List Token),
      ZapParser.skipNewlines (List.replicate n nl ++ ts) =
        ZapParser.skipNewlines ts := by
  intro n
  induction n with
  | zero => intro ts; rfl
  | succ m ih =>
    intro ts
    simp only [List.replicate_succ, List.cons_append, ZapParser.skipNewlines,
      hnl]
    simpa using ih ts

theorem nsBodyLines_eq_spec (level : Nat) : ∀ (members : List Member),
    ZapFormatter.namespaceBodyLines level members =
      ZapFormatter.nsSeparatedSpec level members := by
  intro members
  induction members with
  | nil => rfl
  | cons m rest ih =>
    cases rest with
    | nil =>
      cases m <;>
        simp [ZapFormatter.namespaceBodyLines, ZapFormatter.nsSeparatedSpec,
          ZapFormatter.renderNsMember, ZapFormatter.formatMember]
    | cons m₂ rest' =>
      cases hm : ZapFormatter.isCommentMember m <;>
        cases hm₂ : ZapFormatter.isCommentMember m₂ <;>
        cases m <;>
        simp_all [ZapFormatter.namespaceBodyLines,
          ZapFormatter.nsSeparatedSpec, ZapFormatter.renderNsMember,
          ZapFormatter.formatMember, ZapFormatter.isCommentMember]

/-- C1 (code bug): formatting is not idempotent.  On the input
`opt k = "a\"b"` a first `format` pass succeeds and emits the decoded
string literal without re-escaping its inner quote, and running `format`
on that output fails with an unterminated-string lexing error, so
`format (format x)` differs from `format x`. -/
theorem C1_format_not_idempotent :
    Zap.format "opt k = \"a\\\"b\"" = .ok "opt k = \"a\"b\"" ∧
    Zap.format "opt k = \"a\"b\"" =
      .error
        "Zap formatting error: Unterminated string literal at line 1, column 13" := by
  exact ⟨rfl, rfl⟩

/-- C4: `validate` is total (never throws), answers `valid` exactly when
lexing plus parsing succeeds, and otherwise surfaces the internal error
message unchanged. -/
theorem C4_validate_reflects_lex_parse (input : String) :
    (Zap.validate input = .valid ↔
      ∃ cfg, (ZapLexer.tokenize input).bind ZapParser.parse = .ok cfg) ∧
    (∀ e, (ZapLexer.tokenize input).bind ZapParser.parse = .error e →
      Zap.validate input = .invalid e) := by
  unfold Zap.validate
  cases h₁ : ZapLexer.tokenize input with
  | error e => simp [Except.bind]
  | ok tokens =>
    cases h₂ : ZapParser.parse tokens with
    | error e => simp [Except.bind, h₂]
    | ok cfg => simp [Except.bind, h₂]

theorem C4_validate_reflects_lex_parse_witness :
    Zap.validate "" = .valid ∧
    Zap.validate "(" = .invalid "Unexpected token 'LEFT_PAREN' at line 1" := by
  constructor
  · exact (C4_validate_reflects_lex_parse "").1.mpr ⟨⟨[], []⟩, by rfl⟩
  · exact (C4_validate_reflects_lex_parse "(").2
      "Unexpected token 'LEFT_PAREN' at line 1" (by rfl)

/-- C6 (counterexample): in a namespace, a comment member is followed by
a blank line when the next member is not a comment, contradicting the
claim that a comment always hugs the following member. -/
theorem C6_namespace_comment_blank_line :
    ZapFormatter.formatNamespace 0 "N" [.comment "--c", .event "E" {}] =
      "namespace N = \x7b\n\t--c\n\n\tevent E = \x7b\n\t\x7d\n\x7d" ∧
    ZapFormatter.formatNamespace 0 "N" [.comment "--c", .event "E" {}] ≠
      "namespace N = \x7b\n\t--c\n\tevent E = \x7b\n\t\x7d\n\x7d" := by
  exact ⟨rfl, by decide⟩

/-- C6 (amended): within a formatted namespace body, a blank line
separates every pair of consecutive members except when both members of
the pair are comments (a comment hugs a directly following comment, but
not other member kinds). -/
theorem C6_namespace_blank_line_rule (level : Nat) (name : String)
    (members : List Member) :
    ZapFormatter.formatNamespace level name members =
      String.intercalate "\n"
        ((ZapFormatter.getIndent level ++ "namespace " ++ name ++ " = \x7b") ::
          ZapFormatter.nsSeparatedSpec level members ++
            [ZapFormatter.getIndent level ++ "\x7d"]) := by
  unfold ZapFormatter.formatNamespace
  rw [nsBodyLines_eq_spec]

/-- C7 (counterexample): an event with two newlines between `=` and `{`
is accepted by the full pipeline, contradicting the claim that more than
one newline is rejected. -/
theorem C7_two_newlines_accepted :
    Zap.format "event E =\n\n\x7b\x7d" = .ok "event E = \x7b\n\x7d" := by
  rfl

/-- C8 (counterexample): the source literal `"a\"b"` has six characters,
not seven as the claim states (its tokenization, shown alongside, is
otherwise as claimed). -/
theorem C8_source_literal_not_seven_chars :
    ZapLexer.tokenize "\"a\\\"b\"" =
      .ok [⟨1, 1, .STRING_LITERAL, "\"a\"b\""⟩, ⟨7, 1, .EOF, ""⟩] ∧
    ("\"a\\\"b\"" : String).length ≠ 7 := by
  exact ⟨rfl, by decide⟩

/-- C8 (amended): tokenizing the six-character source literal `"a\"b"`
yields a `STRING_LITERAL` token whose value is the five-character string
`"a"b"` (escape decoded, quotes re-added), and an option carrying that
value is formatted verbatim, the decoded inner quote appearing
unescaped. -/
theorem C8_string_decoded_and_emitted_verbatim :
    ("\"a\\\"b\"" : String).length = 6 ∧
    ZapLexer.tokenize "\"a\\\"b\"" =
      .ok [⟨1, 1, .STRING_LITERAL, "\"a\"b\""⟩, ⟨7, 1, .EOF, ""⟩] ∧
    ("\"a\"b\"" : String).length = 5 ∧
    ZapFormatter.formatOption ⟨"k", .string "\"a\"b\""⟩ =
      "opt k = \"a\"b\"" := by
  exact ⟨rfl, rfl, rfl, rfl⟩

set_option maxHeartbeats 2000000 in
/-- C10: inside event and function property blocks the separator comma
is consumed only if present — dropping one comma right after a parsed
property leaves the separator step unchanged, and the parser maps
juxtaposed properties (no comma, no newline) to the same properties
record as the comma-separated form. -/
theorem C10_property_separators_optional :
    (∀ (c l : Nat) (v : String) (ts : List Token),
      ZapParser.checkT .COMMA ts = false →
        ZapParser.propertySeparator (⟨c, l, .COMMA, v⟩ :: ts) =
          ZapParser.propertySeparator ts) ∧
    ((ZapLexer.tokenize "event E = \x7bfrom: Client type: Reliable\x7d").bind
        ZapParser.parse =
      (ZapLexer.tokenize
          "event E = \x7bfrom: Client, type: Reliable,\x7d").bind
        ZapParser.parse ∧
      (ZapLexer.tokenize "event E = \x7bfrom: Client type: Reliable\x7d").bind
          ZapParser.parse =
        .ok ⟨[.event "E" ⟨none, none, some "Client", some "Reliable"⟩],
          []⟩) ∧
    ((ZapLexer.tokenize
          "funct F = \x7bcall: Async args: (u8) rets: u8\x7d").bind
        ZapParser.parse =
      (ZapLexer.tokenize
          "funct F = \x7bcall: Async, args: (u8), rets: u8,\x7d").bind
        ZapParser.parse ∧
      (ZapLexer.tokenize
          "funct F = \x7bcall: Async args: (u8) rets: u8\x7d").bind
          ZapParser.parse =
        .ok ⟨[.function "F"
            ⟨some (.primitive "u8" none), some "Async",
              some (.primitive "u8" none)⟩], []⟩) := by
  refine ⟨?_, ⟨rfl, rfl⟩, ⟨rfl, rfl⟩⟩
  intro c l v ts h
  have h₁ : ZapParser.checkT .COMMA (⟨c, l, .COMMA, v⟩ :: ts) = true := rfl
  simp [ZapParser.propertySeparator, h₁, h]

theorem C10_property_separators_optional_witness :
    ZapParser.propertySeparator
        [⟨1, 1, .COMMA, ","⟩, ⟨2, 1, .RIGHT_BRACE, "\x7d"⟩] =
      ZapParser.propertySeparator [⟨2, 1, .RIGHT_BRACE, "\x7d"⟩] :=
  C10_property_separators_optional.1 1 1 "," [⟨2, 1, .RIGHT_BRACE, "\x7d"⟩]
    rfl
open Zap

/-- C7 (amended): any number of newlines (zero or more) is permitted
between `=` and `{` in an event declaration: inserting newline tokens
there leaves `parseEvent` unchanged. -/
theorem C7_newlines_after_equals (fuel : Nat) (c₁ l₁ c₂ l₂ c₃ l₃ nlC nlL : Nat)
    (nameV : String) (ts : List Token) (n : Nat) :
    ZapParser.parseEvent fuel
        (⟨c₁, l₁, .EVENT, "event"⟩ :: ⟨c₂, l₂, .IDENTIFIER, nameV⟩ ::
          ⟨c₃, l₃, .EQUALS, "="⟩ ::
          (List.replicate n ⟨nlC, nlL, .NEWLINE, "\n"⟩ ++ ts)) =
      ZapParser.parseEvent fuel
        (⟨c₁, l₁, .EVENT, "event"⟩ :: ⟨c₂, l₂, .IDENTIFIER, nameV⟩ ::
          ⟨c₃, l₃, .EQUALS, "="⟩ :: ts) := by
  cases fuel with
  | zero => rfl
  | succ f =>
    have hskip := skipNewlines_replicate ⟨nlC, nlL, .NEWLINE, "\n"⟩ rfl n ts
    have e₁ : (TokenType.EVENT == TokenType.EOF) = false := rfl
    have e₂ : (TokenType.EVENT == TokenType.EVENT) = true := rfl
    have e₃ : (TokenType.IDENTIFIER == TokenType.EOF) = false := rfl
    have e₄ : (TokenType.IDENTIFIER == TokenType.IDENTIFIER) = true := rfl
    have e₅ : (TokenType.EQUALS == TokenType.EOF) = false := rfl
    have e₆ : (TokenType.EQUALS == TokenType.EQUALS) = true := rfl
    simp [ZapParser.parseEvent, ZapParser.consume, ZapParser.checkT,
      ZapParser.isAtEnd, ZapParser.peekT, hskip, e₁, e₂, e₃, e₄, e₅, e₆,
      Except.bind, bind, pure, Except.pure]

theorem C7_newlines_after_equals_witness :
    ZapParser.parseEvent 9
        (⟨1, 1, .EVENT, "event"⟩ :: ⟨7, 1, .IDENTIFIER, "E"⟩ ::
          ⟨9, 1, .EQUALS, "="⟩ ::
          (List.replicate 2 ⟨10, 1, .NEWLINE, "\n"⟩ ++
            [⟨1, 3, .LEFT_BRACE, "\x7b"⟩, ⟨2, 3, .RIGHT_BRACE, "\x7d"⟩,
              ⟨3, 3, .EOF, ""⟩])) =
      ZapParser.parseEvent 9
        (⟨1, 1, .EVENT, "event"⟩ :: ⟨7, 1, .IDENTIFIER, "E"⟩ ::
          ⟨9, 1, .EQUALS, "="⟩ ::
          [⟨1, 3, .LEFT_BRACE, "\x7b"⟩, ⟨2, 3, .RIGHT_BRACE, "\x7d"⟩,
            ⟨3, 3, .EOF, ""⟩]) :=
  C7_newlines_after_equals 9 1 1 7 1 9 1 10 1 "E"
    [⟨1, 3, .LEFT_BRACE, "\x7b"⟩, ⟨2, 3, .RIGHT_BRACE, "\x7d"⟩,
      ⟨3, 3, .EOF, ""⟩] 2
open Zap

/-- C3: struct, tuple and (untagged, payload-free) enum nodes render
inline exactly when the fully-rendered single-line candidate is at most
120 characters long; at 121 or more they render multi-line.  In
particular a candidate of exactly 120 characters renders inline and one
of 121 renders multi-line. -/
theorem C3_width_threshold_boundary (level : Nat)
    (fields : List (String × TypeNode))
    (elements : List (Option String × TypeNode))
    (tagField : Option String)
    (variants : List (String × Option (List (String × TypeNode))))
    (hTag : optTruthy tagField = false)
    (hNoPayload : (variants.any fun v => v.2.isSome) = false) :
    ((ZapFormatter.structInline (ZapFormatter.formatFieldStrs level fields)).length ≤ 120 →
      ZapFormatter.formatStructType level fields =
        ZapFormatter.structInline (ZapFormatter.formatFieldStrs level fields)) ∧
    (121 ≤ (ZapFormatter.structInline (ZapFormatter.formatFieldStrs level fields)).length →
      ZapFormatter.formatStructType level fields =
        ZapFormatter.structMultiline (ZapFormatter.formatFieldStrs level fields)) ∧
    ((ZapFormatter.tupleInline (ZapFormatter.formatElementStrs level elements)).length ≤ 120 →
      ZapFormatter.formatTupleType level elements =
        ZapFormatter.tupleInline (ZapFormatter.formatElementStrs level elements)) ∧
    (121 ≤ (ZapFormatter.tupleInline (ZapFormatter.formatElementStrs level elements)).length →
      ZapFormatter.formatTupleType level elements =
        ZapFormatter.tupleMultiline level (ZapFormatter.formatElementStrs level elements)) ∧
    ((ZapFormatter.enumInline (variants.map fun v => v.1)).length ≤ 120 →
      ZapFormatter.formatEnumType level tagField variants =
        ZapFormatter.enumInline (variants.map fun v => v.1)) ∧
    (121 ≤ (ZapFormatter.enumInline (variants.map fun v => v.1)).length →
      ZapFormatter.formatEnumType level tagField variants =
        String.intercalate "\n"
          ("enum \x7b" :: ZapFormatter.enumVariantLines level false variants ++
            ["\x7d"])) := by
  refine ⟨?_, ?_, ?_, ?_, ?_, ?_⟩
  · intro h
    simp [ZapFormatter.formatStructType, ZapFormatter.WIDTH_THRESHOLD, h]
  · intro h
    have h' : ¬(ZapFormatter.structInline
        (ZapFormatter.formatFieldStrs level fields)).length ≤ 120 := by omega
    simp [ZapFormatter.formatStructType, ZapFormatter.WIDTH_THRESHOLD, h']
  · intro h
    simp [ZapFormatter.formatTupleType, ZapFormatter.WIDTH_THRESHOLD, h]
  · intro h
    have h' : ¬(ZapFormatter.tupleInline
        (ZapFormatter.formatElementStrs level elements)).length ≤ 120 := by
      omega
    simp [ZapFormatter.formatTupleType, ZapFormatter.WIDTH_THRESHOLD, h']
  · intro h
    have e : ("enum" ++ " \x7b" : String) = "enum \x7b" := rfl
    simp [ZapFormatter.formatEnumType, ZapFormatter.WIDTH_THRESHOLD,
      ZapFormatter.enumInline, hTag, hNoPayload, e] at h ⊢
    simp [h]
  · intro h
    have e : ("enum" ++ " \x7b" : String) = "enum \x7b" := rfl
    simp [ZapFormatter.formatEnumType, ZapFormatter.WIDTH_THRESHOLD,
      ZapFormatter.enumInline, hTag, hNoPayload, e] at h ⊢
    intro hle
    exfalso
    omega
open Zap

set_option maxRecDepth 8000 in
theorem C3_width_threshold_boundary_witness :
    ZapFormatter.formatStructType 0 [("a", .primitive "u8" none)] =
      ZapFormatter.structInline
        (ZapFormatter.formatFieldStrs 0 [("a", .primitive "u8" none)]) ∧
    ZapFormatter.formatStructType 0
        [(String.mk (List.replicate 120 'a'), .primitive "u8" none)] =
      ZapFormatter.structMultiline
        (ZapFormatter.formatFieldStrs 0
          [(String.mk (List.replicate 120 'a'), .primitive "u8" none)]) ∧
    ZapFormatter.formatTupleType 0 [(none, .primitive "u8" none)] =
      ZapFormatter.tupleInline
        (ZapFormatter.formatElementStrs 0 [(none, .primitive "u8" none)]) ∧
    ZapFormatter.formatTupleType 0
        [(some (String.mk (List.replicate 120 'a')), .primitive "u8" none)] =
      ZapFormatter.tupleMultiline 0
        (ZapFormatter.formatElementStrs 0
          [(some (String.mk (List.replicate 120 'a')),
            .primitive "u8" none)]) ∧
    ZapFormatter.formatEnumType 0 none [("A", none), ("B", none)] =
      ZapFormatter.enumInline
        (([("A", none), ("B", none)] :
            List (String × Option (List (String × TypeNode)))).map
          fun v => v.1) ∧
    ZapFormatter.formatEnumType 0 none
        [(String.mk (List.replicate 120 'a'), none)] =
      String.intercalate "\n"
        ("enum \x7b" ::
          ZapFormatter.enumVariantLines 0 false
            [(String.mk (List.replicate 120 'a'), none)] ++ ["\x7d"]) := by
  refine ⟨?_, ?_, ?_, ?_, ?_, ?_⟩
  · exact (C3_width_threshold_boundary 0 [("a", .primitive "u8" none)] []
      none [] rfl rfl).1
      (by simp [ZapFormatter.formatFieldStrs, ZapFormatter.formatType,
            ZapFormatter.structInline]; decide)
  · exact (C3_width_threshold_boundary 0
      [(String.mk (List.replicate 120 'a'), .primitive "u8" none)] []
      none [] rfl rfl).2.1
      (by simp [ZapFormatter.formatFieldStrs, ZapFormatter.formatType,
            ZapFormatter.structInline]; decide)
  · exact (C3_width_threshold_boundary 0 []
      [(none, .primitive "u8" none)] none [] rfl rfl).2.2.1
      (by simp [ZapFormatter.formatElementStrs, ZapFormatter.formatType,
            ZapFormatter.tupleInline]; decide)
  · exact (C3_width_threshold_boundary 0 []
      [(some (String.mk (List.replicate 120 'a')), .primitive "u8" none)]
      none [] rfl rfl).2.2.2.1
      (by simp [ZapFormatter.formatElementStrs, ZapFormatter.formatType,
            ZapFormatter.tupleInline, optTruthy]; decide)
  · exact (C3_width_threshold_boundary 0 [] [] none
      [("A", none), ("B", none)] rfl rfl).2.2.2.2.1 (by decide)
  · exact (C3_width_threshold_boundary 0 [] [] none
      [(String.mk (List.replicate 120 'a'), none)] rfl rfl).2.2.2.2.2
      (by decide)
open Zap

theorem format_decomposition (cfg : ZapConfig) :
    ZapFormatter.format cfg =
      String.intercalate "\n"
        (cfg.options.map ZapFormatter.formatOption ++
          (if cfg.options.isEmpty || cfg.items.isEmpty then [] else [""]) ++
          ZapFormatter.itemsSegs cfg.items) := by
  unfold ZapFormatter.format
  cases hO : cfg.options with
  | nil => simp
  | cons o os =>
    cases hI : cfg.items with
    | nil => simp [ZapFormatter.itemsSegs]
    | cons i is => simp

theorem parseGo_merged (fuel : Nat) : ∀ (ts : List Token)
    (options : List OptionNode) (items : List Item),
    ZapParser.parseGo fuel ts options items =
      (ZapParser.mergedTopLevelGo fuel ts).map
        (fun ds => ⟨items ++ ZapParser.collectItems ds,
          options ++ ZapParser.collectOptions ds⟩) := by
  induction fuel with
  | zero => intro ts options items; rfl
  | succ f ih =>
    intro ts options items
    simp only [ZapParser.parseGo, ZapParser.mergedTopLevelGo]
    by_cases hEnd : ZapParser.isAtEnd (ZapParser.skipNewlines ts)
    · simp [hEnd, Except.map, ZapParser.collectItems,
        ZapParser.collectOptions]
    · simp only [hEnd, Bool.false_eq_true, if_false, ite_false]
      split
      · next heq =>
        cases hc : ZapParser.parseComment (ZapParser.skipNewlines ts) with
        | error e => simp [heq, hc, Except.map]
        | ok r =>
          obtain ⟨c, ts₂⟩ := r
          cases hm : ZapParser.mergedTopLevelGo f
              (ZapParser.skipNewlines ts₂) with
          | error e => simp [heq, hc, hm, ih, Except.map]
          | ok ds =>
            simp [heq, hc, hm, ih, Except.map, ZapParser.collectItems,
              ZapParser.collectOptions]
      · next heq =>
        cases hc : ZapParser.parseEvent f (ZapParser.skipNewlines ts) with
        | error e => simp [heq, hc, Except.map]
        | ok r =>
          obtain ⟨⟨n, p⟩, ts₂⟩ := r
          cases hm : ZapParser.mergedTopLevelGo f
              (ZapParser.skipNewlines ts₂) with
          | error e => simp [heq, hc, hm, ih, Except.map]
          | ok ds =>
            simp [heq, hc, hm, ih, Except.map, ZapParser.collectItems,
              ZapParser.collectOptions]
      · next heq =>
        cases hc : ZapParser.parseFunction f (ZapParser.skipNewlines ts) with
        | error e => simp [heq, hc, Except.map]
        | ok r =>
          obtain ⟨⟨n, p⟩, ts₂⟩ := r
          cases hm : ZapParser.mergedTopLevelGo f
              (ZapParser.skipNewlines ts₂) with
          | error e => simp [heq, hc, hm, ih, Except.map]
          | ok ds =>
            simp [heq, hc, hm, ih, Except.map, ZapParser.collectItems,
              ZapParser.collectOptions]
      · next heq =>
        cases hc : ZapParser.parseNamespace f (ZapParser.skipNewlines ts) with
        | error e => simp [heq, hc, Except.map]
        | ok r =>
          obtain ⟨⟨n, ms⟩, ts₂⟩ := r
          cases hm : ZapParser.mergedTopLevelGo f
              (ZapParser.skipNewlines ts₂) with
          | error e => simp [heq, hc, hm, ih, Except.map]
          | ok ds =>
            simp [heq, hc, hm, ih, Except.map, ZapParser.collectItems,
              ZapParser.collectOptions]
      · next heq =>
        cases hc : ZapParser.parseOption (ZapParser.skipNewlines ts) with
        | error e => simp [heq, hc, Except.map]
        | ok r =>
          obtain ⟨o, ts₂⟩ := r
          cases hm : ZapParser.mergedTopLevelGo f
              (ZapParser.skipNewlines ts₂) with
          | error e => simp [heq, hc, hm, ih, Except.map]
          | ok ds =>
            simp [heq, hc, hm, ih, Except.map, ZapParser.collectItems,
              ZapParser.collectOptions]
      · next heq =>
        cases hc : ZapParser.parseTypeDefinition f
            (ZapParser.skipNewlines ts) with
        | error e => simp [heq, hc, Except.map]
        | ok r =>
          obtain ⟨⟨n, d⟩, ts₂⟩ := r
          cases hm : ZapParser.mergedTopLevelGo f
              (ZapParser.skipNewlines ts₂) with
          | error e => simp [heq, hc, hm, ih, Except.map]
          | ok ds =>
            simp [heq, hc, hm, ih, Except.map, ZapParser.collectItems,
              ZapParser.collectOptions]
      · simp [Except.map]
open Zap

/-- C2: for every token stream accepted by the parser, the configuration
collects the options and the non-option items in their physical source
order (the merged reference stream decomposes into exactly these two
subsequences, so interleaving opt declarations among items changes
neither grouping nor order), and the formatted output is the option
lines in order, then one blank separator entry exactly when both options
and items are present, then the item segment in order, all joined by
newlines. -/
theorem C2_options_first_items_in_order (tokens : List Token)
    (cfg : ZapConfig) (h : ZapParser.parse tokens = .ok cfg) :
    (∃ ds, ZapParser.mergedTopLevel tokens = .ok ds ∧
      cfg.options = ZapParser.collectOptions ds ∧
      cfg.items = ZapParser.collectItems ds) ∧
    ZapFormatter.format cfg =
      String.intercalate "\n"
        (cfg.options.map ZapFormatter.formatOption ++
          (if cfg.options.isEmpty || cfg.items.isEmpty then [] else [""]) ++
          ZapFormatter.itemsSegs cfg.items) := by
  refine ⟨?_, format_decomposition cfg⟩
  unfold ZapParser.parse at h
  unfold ZapParser.mergedTopLevel
  rw [parseGo_merged] at h
  cases hm : ZapParser.mergedTopLevelGo
      (ZapParser.parserFuel (tokens.filter fun t => t.type ≠ .WHITESPACE))
      (tokens.filter fun t => t.type ≠ .WHITESPACE) with
  | error e => rw [hm] at h; simp [Except.map] at h
  | ok ds =>
    rw [hm] at h
    simp only [Except.map, List.nil_append, Except.ok.injEq] at h
    exact ⟨ds, rfl, by rw [← h], by rw [← h]⟩

theorem C2_options_first_items_in_order_witness :
    (∃ ds, ZapParser.mergedTopLevel
        [⟨1, 1, .EVENT, "event"⟩, ⟨7, 1, .IDENTIFIER, "E"⟩,
          ⟨9, 1, .EQUALS, "="⟩, ⟨11, 1, .LEFT_BRACE, "\x7b"⟩,
          ⟨12, 1, .RIGHT_BRACE, "\x7d"⟩, ⟨13, 1, .NEWLINE, "\n"⟩,
          ⟨1, 2, .OPT, "opt"⟩, ⟨5, 2, .IDENTIFIER, "a"⟩,
          ⟨7, 2, .EQUALS, "="⟩, ⟨9, 2, .BOOLEAN_LITERAL, "true"⟩,
          ⟨13, 2, .EOF, ""⟩] = .ok ds ∧
      (ZapConfig.mk [.event "E" ⟨none, none, none, none⟩]
          [⟨"a", .boolean true⟩]).options = ZapParser.collectOptions ds ∧
      (ZapConfig.mk [.event "E" ⟨none, none, none, none⟩]
          [⟨"a", .boolean true⟩]).items = ZapParser.collectItems ds) ∧
    ZapFormatter.format
        (ZapConfig.mk [.event "E" ⟨none, none, none, none⟩]
          [⟨"a", .boolean true⟩]) =
      String.intercalate "\n"
        ((ZapConfig.mk [.event "E" ⟨none, none, none, none⟩]
            [⟨"a", .boolean true⟩]).options.map ZapFormatter.formatOption ++
          (if (ZapConfig.mk [.event "E" ⟨none, none, none, none⟩]
                [⟨"a", .boolean true⟩]).options.isEmpty ||
              (ZapConfig.mk [.event "E" ⟨none, none, none, none⟩]
                [⟨"a", .boolean true⟩]).items.isEmpty then []
          else [""]) ++
          ZapFormatter.itemsSegs
            (ZapConfig.mk [.event "E" ⟨none, none, none, none⟩]
              [⟨"a", .boolean true⟩]).items) :=
  C2_options_first_items_in_order
    [⟨1, 1, .EVENT, "event"⟩, ⟨7, 1, .IDENTIFIER, "E"⟩,
      ⟨9, 1, .EQUALS, "="⟩, ⟨11, 1, .LEFT_BRACE, "\x7b"⟩,
      ⟨12, 1, .RIGHT_BRACE, "\x7d"⟩, ⟨13, 1, .NEWLINE, "\n"⟩,
      ⟨1, 2, .OPT, "opt"⟩, ⟨5, 2, .IDENTIFIER, "a"⟩, ⟨7, 2, .EQUALS, "="⟩,
      ⟨9, 2, .BOOLEAN_LITERAL, "true"⟩, ⟨13, 2, .EOF, ""⟩]
    (ZapConfig.mk [.event "E" ⟨none, none, none, none⟩]
      [⟨"a", .boolean true⟩]) rfl
open Zap

theorem skipWhitespace_allWS :
    ∀ (cs : List Char),
      (∀ c ∈ cs, c = ' ' ∨ c = '\t' ∨ c = '\r' ∨ c = '\n') →
      ∀ (l k : Nat),
      (∃ l' k', ZapLexer.skipWhitespace cs l k = ([], l', k')) ∨
      (∃ cs₂ l' k', ZapLexer.skipWhitespace cs l k = ('\n' :: cs₂, l', k') ∧
        (∀ c ∈ cs₂, c = ' ' ∨ c = '\t' ∨ c = '\r' ∨ c = '\n') ∧
        cs₂.length < cs.length) := by
  intro cs
  induction cs with
  | nil => intro _ l k; exact .inl ⟨l, k, rfl⟩
  | cons c cs' ih =>
    intro hws l k
    by_cases hc : c = ' ' ∨ c = '\t' ∨ c = '\r'
    · have hstep : ZapLexer.skipWhitespace (c :: cs') l k =
          ZapLexer.skipWhitespace cs' l (k + 1) := by
        simp [ZapLexer.skipWhitespace, hc]
      rcases ih (fun d hd => hws d (List.mem_cons_of_mem c hd)) l (k + 1) with
        ⟨l', k', hr⟩ | ⟨cs₂, l', k', hr, hws₂, hlen⟩
      · exact .inl ⟨l', k', by rw [hstep]; exact hr⟩
      · exact .inr ⟨cs₂, l', k', by rw [hstep]; exact hr, hws₂,
          Nat.lt_trans hlen (Nat.lt_succ_self _)⟩
    · have hn : c = '\n' := by
        rcases hws c (List.mem_cons_self _ _) with h | h | h | h <;> tauto
      subst hn
      have hstep : ZapLexer.skipWhitespace ('\n' :: cs') l k =
          ('\n' :: cs', l, k) := by
        simp [ZapLexer.skipWhitespace]
      exact .inr ⟨cs', l, k, hstep,
        fun d hd => hws d (List.mem_cons_of_mem _ hd), Nat.lt_succ_self _⟩

theorem nextToken_allWS (cs : List Char) (_hne : cs ≠ [])
    (hws : ∀ c ∈ cs, c = ' ' ∨ c = '\t' ∨ c = '\r' ∨ c = '\n') (l k : Nat) :
    (∃ l' k', ZapLexer.nextToken cs l k = .ok (none, [], l', k')) ∨
    (∃ t cs₂ l' k', ZapLexer.nextToken cs l k = .ok (some t, cs₂, l', k') ∧
      t.type = .NEWLINE ∧
      (∀ c ∈ cs₂, c = ' ' ∨ c = '\t' ∨ c = '\r' ∨ c = '\n') ∧
      cs₂.length < cs.length) := by
  rcases skipWhitespace_allWS cs hws l k with
    ⟨l', k', hsw⟩ | ⟨cs₂, l', k', hsw, hws₂, hlen⟩
  · exact .inl ⟨l', k', by simp [ZapLexer.nextToken, hsw]⟩
  · have hm₁ : ZapLexer.matchTwo '-' '-' ('\n' :: cs₂) = false := by
      cases cs₂ <;> rfl
    have hm₂ : ZapLexer.matchTwo '.' '.' ('\n' :: cs₂) = false := by
      cases cs₂ <;> rfl
    refine .inr ⟨⟨k', l', .NEWLINE, "\n"⟩, cs₂, l' + 1, 1, ?_, rfl, hws₂,
      hlen⟩
    simp [ZapLexer.nextToken, hsw, hm₁, hm₂]

theorem tokenizeGo_allWS :
    ∀ (fuel : Nat) (cs : List Char) (l k : Nat), cs.length < fuel →
      (∀ c ∈ cs, c = ' ' ∨ c = '\t' ∨ c = '\r' ∨ c = '\n') →
      ∃ nls lastTok, ZapLexer.tokenizeGo fuel cs l k = .ok (nls ++ [lastTok]) ∧
        lastTok.type = .EOF ∧ ∀ t ∈ nls, t.type = .NEWLINE := by
  intro fuel
  induction fuel with
  | zero => intro cs l k hlt; omega
  | succ f ih =>
    intro cs l k hlt hws
    cases cs with
    | nil => exact ⟨[], ⟨k, l, .EOF, ""⟩, rfl, rfl, by simp⟩
    | cons c cs' =>
      rcases nextToken_allWS (c :: cs') (by simp) hws l k with
        ⟨l', k', hnt⟩ | ⟨t, cs₂, l', k', hnt, hty, hws₂, hlen⟩
      · have hf : (0 : Nat) < f := by simp at hlt; omega
        obtain ⟨nls, lastTok, hgo, hE, hN⟩ := ih [] l' k' hf (by simp)
        exact ⟨nls, lastTok, by simp [ZapLexer.tokenizeGo, hnt, hgo], hE, hN⟩
      · have hf : cs₂.length < f := by simp at hlt hlen ⊢; omega
        obtain ⟨nls, lastTok, hgo, hE, hN⟩ := ih cs₂ l' k' hf hws₂
        refine ⟨t :: nls, lastTok, ?_, hE, ?_⟩
        · simp [ZapLexer.tokenizeGo, hnt, hgo]
        · intro u hu
          rcases List.mem_cons.mp hu with rfl | hu'
          · exact hty
          · exact hN u hu'

theorem skipNewlines_all_newline :
    ∀ (nls : List Token), (∀ t ∈ nls, t.type = .NEWLINE) →
      ∀ (rest : List Token),
        ZapParser.skipNewlines (nls ++ rest) = ZapParser.skipNewlines rest := by
  intro nls
  induction nls with
  | nil => intro _ rest; rfl
  | cons t nls' ih =>
    intro h rest
    have ht : t.type = .NEWLINE := h t (List.mem_cons_self _ _)
    simp only [List.cons_append, ZapParser.skipNewlines, ht]
    simpa using ih (fun u hu => h u (List.mem_cons_of_mem t hu)) rest

theorem parse_newline_stream (nls : List Token) (lastTok : Token)
    (hN : ∀ t ∈ nls, t.type = .NEWLINE) (hE : lastTok.type = .EOF) :
    ZapParser.parse (nls ++ [lastTok]) = .ok ⟨[], []⟩ := by
  unfold ZapParser.parse
  have hfilter : (nls ++ [lastTok]).filter (fun t => t.type ≠ .WHITESPACE) =
      nls ++ [lastTok] := by
    rw [List.filter_eq_self]
    intro t ht
    rcases List.mem_append.mp ht with h | h
    · simp [hN t h]
    · simp at h
      subst h
      simp [hE]
  rw [hfilter]
  show ZapParser.parseGo (ZapParser.parserFuel (nls ++ [lastTok]))
      (nls ++ [lastTok]) [] [] = Except.ok ⟨[], []⟩
  obtain ⟨m, hm⟩ : ∃ m, ZapParser.parserFuel (nls ++ [lastTok]) = m + 1 :=
    ⟨10 * (nls ++ [lastTok]).length + 9, by simp [ZapParser.parserFuel]⟩
  rw [hm]
  have hskip : ZapParser.skipNewlines (nls ++ [lastTok]) = [lastTok] := by
    rw [skipNewlines_all_newline nls hN [lastTok]]
    have : (TokenType.EOF == TokenType.NEWLINE) = false := rfl
    simp [ZapParser.skipNewlines, hE, this]
  have hend : ZapParser.isAtEnd [lastTok] = true := by
    have : (TokenType.EOF == TokenType.EOF) = true := rfl
    simp [ZapParser.isAtEnd, ZapParser.peekT, hE, this]
  simp [ZapParser.parseGo, hskip, hend]

/-- C9: on the empty input and on every input made only of spaces, tabs,
carriage returns and newlines, `format` returns the empty string and
`validate` answers valid. -/
theorem C9_whitespace_only_formats_empty (s : String)
    (h : ∀ c ∈ s.data, c = ' ' ∨ c = '\t' ∨ c = '\r' ∨ c = '\n') :
    Zap.format s = .ok "" ∧ Zap.validate s = .valid := by
  obtain ⟨nls, lastTok, htok, hE, hN⟩ :=
    tokenizeGo_allWS (s.length + 1) s.data 1 1
      (by have : s.length = s.data.length := rfl; omega) h
  have htokenize : ZapLexer.tokenize s = .ok (nls ++ [lastTok]) := htok
  have hparse := parse_newline_stream nls lastTok hN hE
  constructor
  · unfold Zap.format
    rw [htokenize]
    simp only [hparse]
    rfl
  · unfold Zap.validate
    rw [htokenize]
    simp only [hparse]

theorem C9_whitespace_only_formats_empty_witness :
    (Zap.format " \t\r\n" = .ok "" ∧ Zap.validate " \t\r\n" = .valid) ∧
    (Zap.format "" = .ok "" ∧ Zap.validate "" = .valid) :=
  ⟨C9_whitespace_only_formats_empty " \t\r\n" (by decide),
    C9_whitespace_only_formats_empty "" (by decide)⟩
open Zap

theorem stepLC_of_ne (c : Char) (l k : Nat) (h : ¬c = '\n') :
    ZapLexer.stepLC (l, k) c = (l, k + 1) := by
  simp [ZapLexer.stepLC, h]

theorem skipWhitespace_consumed :
    ∀ (cs : List Char) (l k : Nat),
      ∃ taken, cs = taken ++ (ZapLexer.skipWhitespace cs l k).1 ∧
        ((ZapLexer.skipWhitespace cs l k).2.1,
          (ZapLexer.skipWhitespace cs l k).2.2) =
          taken.foldl ZapLexer.stepLC (l, k) := by
  intro cs
  induction cs with
  | nil => intro l k; exact ⟨[], rfl, rfl⟩
  | cons c cs' ih =>
    intro l k
    by_cases hc : c = ' ' ∨ c = '\t' ∨ c = '\r'
    · have hstep : ZapLexer.skipWhitespace (c :: cs') l k =
          ZapLexer.skipWhitespace cs' l (k + 1) := by
        simp [ZapLexer.skipWhitespace, hc]
      obtain ⟨taken, hsplit, hfold⟩ := ih l (k + 1)
      refine ⟨c :: taken, ?_, ?_⟩
      · rw [hstep, List.cons_append, ← hsplit]
      · rw [hstep, List.foldl_cons,
          stepLC_of_ne c l k (by rcases hc with rfl | rfl | rfl <;> decide)]
        exact hfold
    · have hstep : ZapLexer.skipWhitespace (c :: cs') l k =
          (c :: cs', l, k) := by
        simp [ZapLexer.skipWhitespace, hc]
      exact ⟨[], by rw [hstep]; rfl, by rw [hstep]; rfl⟩

theorem readCommentBody_consumed :
    ∀ (cs : List Char) (l k : Nat) (acc : String),
      ∃ taken, cs = taken ++ (ZapLexer.readCommentBody cs l k acc).2.1 ∧
        ((ZapLexer.readCommentBody cs l k acc).2.2.1,
          (ZapLexer.readCommentBody cs l k acc).2.2.2) =
          taken.foldl ZapLexer.stepLC (l, k) := by
  intro cs
  induction cs with
  | nil => intro l k acc; exact ⟨[], rfl, rfl⟩
  | cons c cs' ih =>
    intro l k acc
    by_cases hc : c = '\n'
    · have hstep : ZapLexer.readCommentBody (c :: cs') l k acc =
          (acc, c :: cs', l, k) := by
        simp [ZapLexer.readCommentBody, hc]
      exact ⟨[], by rw [hstep]; rfl, by rw [hstep]; rfl⟩
    · have hstep : ZapLexer.readCommentBody (c :: cs') l k acc =
          ZapLexer.readCommentBody cs' l (k + 1) (acc.push c) := by
        simp [ZapLexer.readCommentBody, hc]
      obtain ⟨taken, hsplit, hfold⟩ := ih l (k + 1) (acc.push c)
      refine ⟨c :: taken, ?_, ?_⟩
      · rw [hstep, List.cons_append, ← hsplit]
      · rw [hstep, List.foldl_cons, stepLC_of_ne c l k hc]
        exact hfold

theorem readIdentRun_consumed :
    ∀ (cs : List Char) (l k : Nat) (acc : String),
      ∃ taken, cs = taken ++ (ZapLexer.readIdentRun cs l k acc).2.1 ∧
        ((ZapLexer.readIdentRun cs l k acc).2.2.1,
          (ZapLexer.readIdentRun cs l k acc).2.2.2) =
          taken.foldl ZapLexer.stepLC (l, k) := by
  intro cs
  induction cs with
  | nil => intro l k acc; exact ⟨[], rfl, rfl⟩
  | cons c cs' ih =>
    intro l k acc
    by_cases hc : (ZapLexer.isAlphaNumeric c || c = '_') = true
    · have hcn : ¬c = '\n' := by
        intro hn
        subst hn
        exact absurd hc (by decide)
      have hstep : ZapLexer.readIdentRun (c :: cs') l k acc =
          ZapLexer.readIdentRun cs' l (k + 1) (acc.push c) := by
        simp only [ZapLexer.readIdentRun, hc, if_true]
      obtain ⟨taken, hsplit, hfold⟩ := ih l (k + 1) (acc.push c)
      refine ⟨c :: taken, ?_, ?_⟩
      · rw [hstep, List.cons_append, ← hsplit]
      · rw [hstep, List.foldl_cons, stepLC_of_ne c l k hcn]
        exact hfold
    · have hstep : ZapLexer.readIdentRun (c :: cs') l k acc =
          (acc, c :: cs', l, k) := by
        simp only [ZapLexer.readIdentRun, hc, if_false, Bool.false_eq_true]
      exact ⟨[], by rw [hstep]; rfl, by rw [hstep]; rfl⟩

theorem readNumberBody_consumed :
    ∀ (cs : List Char) (l k : Nat) (acc : String) (hasDot : Bool),
      ∃ taken, cs = taken ++ (ZapLexer.readNumberBody cs l k acc hasDot).2.1 ∧
        ((ZapLexer.readNumberBody cs l k acc hasDot).2.2.1,
          (ZapLexer.readNumberBody cs l k acc hasDot).2.2.2) =
          taken.foldl ZapLexer.stepLC (l, k) := by
  intro cs
  induction cs with
  | nil => intro l k acc hasDot; exact ⟨[], rfl, rfl⟩
  | cons c cs' ih =>
    intro l k acc hasDot
    by_cases hd : ZapLexer.isDigit c = true
    · have hcn : ¬c = '\n' := by
        intro hn; subst hn; exact absurd hd (by decide)
      have hstep : ZapLexer.readNumberBody (c :: cs') l k acc hasDot =
          ZapLexer.readNumberBody cs' l (k + 1) (acc.push c) hasDot := by
        simp only [ZapLexer.readNumberBody, hd, if_true]
      obtain ⟨taken, hsplit, hfold⟩ := ih l (k + 1) (acc.push c) hasDot
      refine ⟨c :: taken, ?_, ?_⟩
      · rw [hstep, List.cons_append, ← hsplit]
      · rw [hstep, List.foldl_cons, stepLC_of_ne c l k hcn]
        exact hfold
    · by_cases hdot : c = '.' ∧ hasDot = false
      · obtain ⟨hc', hdot'⟩ := hdot
        subst hc'
        subst hdot'
        rcases cs' with _ | ⟨c₂, rest⟩
        · have hstep : ZapLexer.readNumberBody ['.'] l k acc false =
              (acc.push '.', [], l, k + 1) := rfl
          refine ⟨['.'], by rw [hstep]; rfl, ?_⟩
          rw [hstep]
          rfl
        · by_cases hc₂ : c₂ = '.'
          · subst hc₂
            have hstep : ZapLexer.readNumberBody ('.' :: '.' :: rest) l k
                acc false = (acc, '.' :: '.' :: rest, l, k) := rfl
            exact ⟨[], by rw [hstep]; rfl, by rw [hstep]; rfl⟩
          · have hstep : ZapLexer.readNumberBody ('.' :: c₂ :: rest) l k
                acc false =
                ZapLexer.readNumberBody (c₂ :: rest) l (k + 1)
                  (acc.push '.') true := by
              simp only [ZapLexer.readNumberBody]
              simp [hc₂, show ZapLexer.isDigit '.' = false from rfl]
            obtain ⟨taken, hsplit, hfold⟩ := ih l (k + 1) (acc.push '.') true
            refine ⟨'.' :: taken, ?_, ?_⟩
            · rw [hstep, List.cons_append, ← hsplit]
            · rw [hstep, List.foldl_cons,
                stepLC_of_ne '.' l k (by decide)]
              exact hfold
      · have hstep : ZapLexer.readNumberBody (c :: cs') l k acc hasDot =
            (acc, c :: cs', l, k) := by
          simp only [ZapLexer.readNumberBody]
          simp [hd, hdot]
        exact ⟨[], by rw [hstep]; rfl, by rw [hstep]; rfl⟩
open Zap

theorem readStringBody_consumed (sl sc : Nat) :
    ∀ (cs : List Char) (l k : Nat) (acc v : String) (cs' : List Char)
      (l' k' : Nat),
      ZapLexer.readStringBody sl sc cs l k acc = .ok (v, cs', l', k') →
      ∃ taken, cs = taken ++ cs' ∧
        (l', k') = taken.foldl ZapLexer.stepLC (l, k)
  | [], l, k, acc, v, cs', l', k' => by
    intro h
    rw [ZapLexer.readStringBody.eq_def] at h
    simp at h
  | c :: cs, l, k, acc, v, cs', l', k' => by
    intro h
    by_cases hq : c = '"'
    · subst hq
      rw [ZapLexer.readStringBody.eq_def] at h
      simp at h
      obtain ⟨-, rfl, rfl, rfl⟩ := h
      exact ⟨['"'], rfl, rfl⟩
    · by_cases hb : c = '\\'
      · subst hb
        rcases cs with _ | ⟨e, cs₂⟩
        · rw [ZapLexer.readStringBody.eq_def] at h
          simp at h
        · rw [ZapLexer.readStringBody.eq_def] at h
          simp at h
          obtain ⟨taken, hsplit, hfold⟩ :=
            readStringBody_consumed sl sc cs₂ _ _ _ v cs' l' k' h
          refine ⟨'\\' :: e :: taken,
            by rw [List.cons_append, List.cons_append, ← hsplit], ?_⟩
          rw [List.foldl_cons, List.foldl_cons,
            stepLC_of_ne '\\' l k (by decide)]
          simpa using hfold
      · rw [ZapLexer.readStringBody.eq_def] at h
        simp [hq, hb] at h
        obtain ⟨taken, hsplit, hfold⟩ :=
          readStringBody_consumed sl sc cs _ _ _ v cs' l' k' h
        refine ⟨c :: taken, by rw [List.cons_append, ← hsplit], ?_⟩
        rw [List.foldl_cons]
        simpa using hfold

theorem lookup_pair_mem {α β : Type} [BEq α] (a : α) (b : β) :
    ∀ (l : List (α × β)), l.lookup a = some b → ∃ k, (k, b) ∈ l
  | [] => by intro h; simp [List.lookup] at h
  | (k, v) :: es => by
    intro h
    simp only [List.lookup] at h
    cases hak : a == k with
    | true =>
      rw [hak] at h
      simp only [Option.some.injEq] at h
      subst h
      exact ⟨k, List.mem_cons_self _ _⟩
    | false =>
      rw [hak] at h
      obtain ⟨k', hk'⟩ := lookup_pair_mem a b es h
      exact ⟨k', List.mem_cons_of_mem _ hk'⟩

theorem keywords_snd_ne_eof (p : String × TokenType)
    (hp : p ∈ ZapLexer.keywords) : p.2 ≠ TokenType.EOF := by
  have hall : ZapLexer.keywords.all (fun q => q.2 != TokenType.EOF) =
      true := by decide
  have hne := List.all_eq_true.mp hall p hp
  intro hEq
  rw [hEq] at hne
  exact absurd hne (by decide)

theorem readIdentRun_cons_step (c : Char) (cs : List Char) (l k : Nat)
    (acc : String) (hc : (ZapLexer.isAlphaNumeric c || c = '_') = true) :
    ZapLexer.readIdentRun (c :: cs) l k acc =
      ZapLexer.readIdentRun cs l (k + 1) (acc.push c) := by
  simp [ZapLexer.readIdentRun, hc]

theorem identChar_ne_newline (c : Char)
    (hc : (ZapLexer.isAlphaNumeric c || c = '_') = true) : ¬c = '\n' := by
  intro hn
  subst hn
  exact absurd hc (by decide)

theorem lookupTok_ne_eof (v : String) :
    ((ZapLexer.keywords.lookup v).getD .IDENTIFIER) ≠ TokenType.EOF := by
  cases hlk : ZapLexer.keywords.lookup v with
  | none => simp only [Option.getD_none]; decide
  | some ty =>
    simp only [Option.getD_some]
    obtain ⟨k', hk'⟩ := lookup_pair_mem v ty ZapLexer.keywords hlk
    exact keywords_snd_ne_eof (k', ty) hk'

theorem matchTwo_eq_true (a b : Char) (cs : List Char)
    (h : ZapLexer.matchTwo a b cs = true) : ∃ t, cs = a :: b :: t := by
  match cs with
  | [] => rw [ZapLexer.matchTwo.eq_def] at h; simp at h
  | [x] => rw [ZapLexer.matchTwo.eq_def] at h; simp at h
  | x :: y :: t =>
    rw [ZapLexer.matchTwo.eq_def] at h
    simp at h
    obtain ⟨rfl, rfl⟩ := h
    exact ⟨t, rfl⟩

theorem readNumberBody_cons_digit (c : Char) (cs : List Char) (l k : Nat)
    (acc : String) (d : Bool) (hc : ZapLexer.isDigit c = true) :
    ZapLexer.readNumberBody (c :: cs) l k acc d =
      ZapLexer.readNumberBody cs l (k + 1) (acc.push c) d := by
  rw [ZapLexer.readNumberBody.eq_def]
  simp [hc]

theorem readIdentifier_consumed (c0 : Char) (cs0 : List Char)
    (l k sl sc : Nat) (hc0 : ZapLexer.isAlpha c0 = true) :
    ∃ taken,
      c0 :: cs0 = taken ++ (ZapLexer.readIdentifier (c0 :: cs0) l k sl sc).2.1 ∧
      ((ZapLexer.readIdentifier (c0 :: cs0) l k sl sc).2.2.1,
        (ZapLexer.readIdentifier (c0 :: cs0) l k sl sc).2.2.2) =
        taken.foldl ZapLexer.stepLC (l, k) ∧
      (ZapLexer.readIdentifier (c0 :: cs0) l k sl sc).2.1.length ≤ cs0.length ∧
      (ZapLexer.readIdentifier (c0 :: cs0) l k sl sc).1.type ≠
        TokenType.EOF := by
  have hic : (ZapLexer.isAlphaNumeric c0 || c0 = '_') = true := by
    simp [ZapLexer.isAlphaNumeric, hc0]
  have hc0n : ¬c0 = '\n' := identChar_ne_newline c0 hic
  obtain ⟨t1, hs1, hf1⟩ := readIdentRun_consumed cs0 l (k + 1) ("".push c0)
  rcases hr₁ : ZapLexer.readIdentRun cs0 l (k + 1) ("".push c0) with
    ⟨v₁, cs₁, l₁, k₁⟩
  rw [hr₁] at hs1 hf1
  dsimp only at hs1 hf1
  have hsplit₁ : c0 :: cs0 = (c0 :: t1) ++ cs₁ := by rw [List.cons_append, hs1]
  have hfold₁ : (l₁, k₁) = (c0 :: t1).foldl ZapLexer.stepLC (l, k) := by
    rw [List.foldl_cons, stepLC_of_ne c0 l k hc0n]
    exact hf1
  have hlen₁ : cs₁.length ≤ cs0.length := by
    have := congrArg List.length hs1
    simp at this
    omega
  simp only [ZapLexer.readIdentifier, readIdentRun_cons_step c0 cs0 l k "" hic,
    hr₁]
  rcases cs₁ with _ | ⟨c₁, t₁'⟩
  · by_cases hsc : strContainsChar v₁ '.' = true
    · simp only [if_pos hsc]
      exact ⟨c0 :: t1, hsplit₁, hfold₁, hlen₁, by decide⟩
    · simp only [if_neg hsc]
      exact ⟨c0 :: t1, hsplit₁, hfold₁, hlen₁, lookupTok_ne_eof v₁⟩
  · by_cases hdot : c₁ = '.'
    · subst hdot
      obtain ⟨t2, hs2, hf2⟩ :=
        readIdentRun_consumed t₁' l₁ (k₁ + 1) (v₁.push '.')
      rcases hr₂ : ZapLexer.readIdentRun t₁' l₁ (k₁ + 1) (v₁.push '.') with
        ⟨v₂, cs₂, l₂, k₂⟩
      rw [hr₂] at hs2 hf2
      dsimp only at hs2 hf2
      simp only [hr₂]
      have hsplit₂ : c0 :: cs0 = (c0 :: t1 ++ '.' :: t2) ++ cs₂ := by
        rw [hsplit₁, hs2]
        simp
      have hfold₂ : (l₂, k₂) =
          (c0 :: t1 ++ '.' :: t2).foldl ZapLexer.stepLC (l, k) := by
        rw [List.cons_append, List.foldl_cons, stepLC_of_ne c0 l k hc0n,
          List.foldl_append, ← hf1, List.foldl_cons,
          stepLC_of_ne '.' l₁ k₁ (by decide)]
        exact hf2
      have hlen₂ : cs₂.length ≤ cs0.length := by
        have h1 := congrArg List.length hs1
        have h2 := congrArg List.length hs2
        simp at h1 h2
        omega
      by_cases hsc : strContainsChar v₂ '.' = true
      · simp only [if_pos hsc]
        exact ⟨c0 :: t1 ++ '.' :: t2, hsplit₂, hfold₂, hlen₂, by decide⟩
      · simp only [if_neg hsc]
        exact ⟨c0 :: t1 ++ '.' :: t2, hsplit₂, hfold₂, hlen₂,
          lookupTok_ne_eof v₂⟩
    · have hred : (match c₁ :: t₁' with
          | '.' :: cs' => ZapLexer.readIdentRun cs' l₁ (k₁ + 1) (v₁.push '.')
          | x => (v₁, c₁ :: t₁', l₁, k₁)) = (v₁, c₁ :: t₁', l₁, k₁) := by
        split
        · next cs' heq =>
          exfalso
          injection heq with h1 h2
          exact hdot h1
        · rfl
      rw [hred]
      by_cases hsc : strContainsChar v₁ '.' = true
      · simp only [if_pos hsc]
        exact ⟨c0 :: t1, hsplit₁, hfold₁, hlen₁, by decide⟩
      · simp only [if_neg hsc]
        exact ⟨c0 :: t1, hsplit₁, hfold₁, hlen₁, lookupTok_ne_eof v₁⟩

theorem singleCharFinish (cs ws : List Char) (x : Char) (t : List Char)
    (l k l₁ k₁ : Nat)
    (hwss : cs = ws ++ x :: t)
    (hwsf : (l₁, k₁) = ws.foldl ZapLexer.stepLC (l, k))
    (hxn : ¬x = '\n') :
    ∃ taken, cs = taken ++ t ∧
      (l₁, k₁ + 1) = taken.foldl ZapLexer.stepLC (l, k) ∧
      t.length < cs.length := by
  refine ⟨ws ++ [x], by simpa using hwss, ?_, ?_⟩
  · rw [List.foldl_append, ← hwsf]
    simp [stepLC_of_ne x l₁ k₁ hxn]
  · subst hwss
    simp
    omega

theorem nextToken_consumed (cs : List Char) (l k : Nat)
    (otok : Option Token) (cs₂ : List Char) (l₂ k₂ : Nat)
    (h : ZapLexer.nextToken cs l k = .ok (otok, cs₂, l₂, k₂)) :
    ∃ taken, cs = taken ++ cs₂ ∧
      (l₂, k₂) = taken.foldl ZapLexer.stepLC (l, k) ∧
      (cs ≠ [] → cs₂.length < cs.length) ∧
      ∀ u, otok = some u → u.type ≠ TokenType.EOF := by
  obtain ⟨ws, hwss, hwsf⟩ := skipWhitespace_consumed cs l k
  rcases hsw : ZapLexer.skipWhitespace cs l k with ⟨cs₁, l₁, k₁⟩
  rw [hsw] at hwss hwsf
  dsimp only at hwss hwsf
  simp only [ZapLexer.nextToken, hsw] at h
  by_cases hemp : cs₁.isEmpty = true
  · rw [if_pos hemp] at h
    simp only [Except.ok.injEq, Prod.mk.injEq] at h
    obtain ⟨rfl, rfl, rfl, rfl⟩ := h
    have hnil : cs₁ = [] := by
      cases cs₁ with
      | nil => rfl
      | cons a b => simp [List.isEmpty] at hemp
    subst hnil
    refine ⟨ws, hwss, hwsf, ?_, ?_⟩
    · intro hne
      simp only [List.length_nil]
      exact List.length_pos.mpr hne
    · intro u hu
      exact absurd hu (by simp)
  · rw [if_neg hemp] at h
    rcases cs₁ with _ | ⟨x, t⟩
    · exact absurd rfl hemp
    have hlt : ∀ r : List Char, r.length ≤ t.length → r.length < cs.length := by
      intro r hr
      have := congrArg List.length hwss
      simp at this
      omega
    by_cases hcm : ZapLexer.matchTwo '-' '-' (x :: t) = true
    · rw [if_pos hcm] at h
      obtain ⟨t', hts⟩ := matchTwo_eq_true '-' '-' (x :: t) hcm
      injection hts with hx ht
      subst hx
      subst ht
      obtain ⟨t2, hs2, hf2⟩ := readCommentBody_consumed t' l₁ (k₁ + 2) ""
      simp only [List.tail_cons, Except.ok.injEq, Prod.mk.injEq] at h
      obtain ⟨rfl, rfl, rfl, rfl⟩ := h
      refine ⟨ws ++ '-' :: '-' :: t2, ?_, ?_, ?_, ?_⟩
      · conv_lhs => rw [hwss, hs2]
        simp
      · rw [List.foldl_append, ← hwsf]
        simp only [List.foldl_cons, stepLC_of_ne '-' l₁ k₁ (by decide)]
        rw [stepLC_of_ne '-' l₁ (k₁ + 1) (by decide)]
        exact hf2
      · intro _
        have h2 := congrArg List.length hs2
        simp only [List.length_append] at h2
        apply hlt
        simp only [List.length_cons]
        omega
      · intro u hu
        injection hu with hu
        subst hu
        simp
    · rw [if_neg hcm] at h
      by_cases hdd : ZapLexer.matchTwo '.' '.' (x :: t) = true
      · rw [if_pos hdd] at h
        obtain ⟨t', hts⟩ := matchTwo_eq_true '.' '.' (x :: t) hdd
        injection hts with hx ht
        subst hx
        subst ht
        simp only [List.tail_cons, Except.ok.injEq, Prod.mk.injEq] at h
        obtain ⟨rfl, rfl, rfl, rfl⟩ := h
        refine ⟨ws ++ ['.', '.'], ?_, ?_, ?_, ?_⟩
        · rw [hwss]
          simp
        · rw [List.foldl_append, ← hwsf]
          simp only [List.foldl_cons, stepLC_of_ne '.' l₁ k₁ (by decide)]
          rw [stepLC_of_ne '.' l₁ (k₁ + 1) (by decide)]
          rfl
        · intro _
          exact hlt t' (by simp)
        · intro u hu
          injection hu with hu
          subst hu
          simp
      · rw [if_neg hdd] at h
        simp only [List.headD_cons, List.tail_cons] at h
        by_cases hnl : x = '\n'
        · rw [if_pos hnl] at h
          subst hnl
          simp only [Except.ok.injEq, Prod.mk.injEq] at h
          obtain ⟨rfl, rfl, rfl, rfl⟩ := h
          refine ⟨ws ++ ['\n'], ?_, ?_, ?_, ?_⟩
          · rw [hwss]
            simp
          · rw [List.foldl_append, ← hwsf]
            simp [ZapLexer.stepLC]
          · intro _
            exact hlt t (by simp)
          · intro u hu
            injection hu with hu
            subst hu
            simp
        · rw [if_neg hnl] at h
          by_cases hcP : x = '('
          · rw [if_pos hcP] at h
            simp only [Except.ok.injEq, Prod.mk.injEq] at h
            obtain ⟨rfl, rfl, rfl, rfl⟩ := h
            obtain ⟨tk, ha, hb, hc⟩ :=
              singleCharFinish cs ws x t l k l₁ k₁ hwss hwsf hnl
            refine ⟨tk, ha, hb, fun _ => hc, ?_⟩
            intro u hu
            injection hu with hu
            subst hu
            simp
          · rw [if_neg hcP] at h
            by_cases hcQ : x = ')'
            · rw [if_pos hcQ] at h
              simp only [Except.ok.injEq, Prod.mk.injEq] at h
              obtain ⟨rfl, rfl, rfl, rfl⟩ := h
              obtain ⟨tk, ha, hb, hc⟩ :=
                singleCharFinish cs ws x t l k l₁ k₁ hwss hwsf hnl
              refine ⟨tk, ha, hb, fun _ => hc, ?_⟩
              intro u hu
              injection hu with hu
              subst hu
              simp
            · rw [if_neg hcQ] at h
              by_cases hcR : x = ','
              · rw [if_pos hcR] at h
                simp only [Except.ok.injEq, Prod.mk.injEq] at h
                obtain ⟨rfl, rfl, rfl, rfl⟩ := h
                obtain ⟨tk, ha, hb, hc⟩ :=
                  singleCharFinish cs ws x t l k l₁ k₁ hwss hwsf hnl
                refine ⟨tk, ha, hb, fun _ => hc, ?_⟩
                intro u hu
                injection hu with hu
                subst hu
                simp
              · rw [if_neg hcR] at h
                by_cases hcS : x = ':'
                · rw [if_pos hcS] at h
                  simp only [Except.ok.injEq, Prod.mk.injEq] at h
                  obtain ⟨rfl, rfl, rfl, rfl⟩ := h
                  obtain ⟨tk, ha, hb, hc⟩ :=
                    singleCharFinish cs ws x t l k l₁ k₁ hwss hwsf hnl
                  refine ⟨tk, ha, hb, fun _ => hc, ?_⟩
                  intro u hu
                  injection hu with hu
                  subst hu
                  simp
                · rw [if_neg hcS] at h
                  by_cases hcT : x = '<'
                  · rw [if_pos hcT] at h
                    simp only [Except.ok.injEq, Prod.mk.injEq] at h
                    obtain ⟨rfl, rfl, rfl, rfl⟩ := h
                    obtain ⟨tk, ha, hb, hc⟩ :=
                      singleCharFinish cs ws x t l k l₁ k₁ hwss hwsf hnl
                    refine ⟨tk, ha, hb, fun _ => hc, ?_⟩
                    intro u hu
                    injection hu with hu
                    subst hu
                    simp
                  · rw [if_neg hcT] at h
                    by_cases hcU : x = '='
                    · rw [if_pos hcU] at h
                      simp only [Except.ok.injEq, Prod.mk.injEq] at h
                      obtain ⟨rfl, rfl, rfl, rfl⟩ := h
                      obtain ⟨tk, ha, hb, hc⟩ :=
                        singleCharFinish cs ws x t l k l₁ k₁ hwss hwsf hnl
                      refine ⟨tk, ha, hb, fun _ => hc, ?_⟩
                      intro u hu
                      injection hu with hu
                      subst hu
                      simp
                    · rw [if_neg hcU] at h
                      by_cases hcV : x = '>'
                      · rw [if_pos hcV] at h
                        simp only [Except.ok.injEq, Prod.mk.injEq] at h
                        obtain ⟨rfl, rfl, rfl, rfl⟩ := h
                        obtain ⟨tk, ha, hb, hc⟩ :=
                          singleCharFinish cs ws x t l k l₁ k₁ hwss hwsf hnl
                        refine ⟨tk, ha, hb, fun _ => hc, ?_⟩
                        intro u hu
                        injection hu with hu
                        subst hu
                        simp
                      · rw [if_neg hcV] at h
                        by_cases hcW : x = '?'
                        · rw [if_pos hcW] at h
                          simp only [Except.ok.injEq, Prod.mk.injEq] at h
                          obtain ⟨rfl, rfl, rfl, rfl⟩ := h
                          obtain ⟨tk, ha, hb, hc⟩ :=
                            singleCharFinish cs ws x t l k l₁ k₁ hwss hwsf hnl
                          refine ⟨tk, ha, hb, fun _ => hc, ?_⟩
                          intro u hu
                          injection hu with hu
                          subst hu
                          simp
                        · rw [if_neg hcW] at h
                          by_cases hcX : x = '['
                          · rw [if_pos hcX] at h
                            simp only [Except.ok.injEq, Prod.mk.injEq] at h
                            obtain ⟨rfl, rfl, rfl, rfl⟩ := h
                            obtain ⟨tk, ha, hb, hc⟩ :=
                              singleCharFinish cs ws x t l k l₁ k₁ hwss hwsf hnl
                            refine ⟨tk, ha, hb, fun _ => hc, ?_⟩
                            intro u hu
                            injection hu with hu
                            subst hu
                            simp
                          · rw [if_neg hcX] at h
                            by_cases hcY : x = ']'
                            · rw [if_pos hcY] at h
                              simp only [Except.ok.injEq, Prod.mk.injEq] at h
                              obtain ⟨rfl, rfl, rfl, rfl⟩ := h
                              obtain ⟨tk, ha, hb, hc⟩ :=
                                singleCharFinish cs ws x t l k l₁ k₁ hwss hwsf hnl
                              refine ⟨tk, ha, hb, fun _ => hc, ?_⟩
                              intro u hu
                              injection hu with hu
                              subst hu
                              simp
                            · rw [if_neg hcY] at h
                              by_cases hcZ : x = '\x7b'
                              · rw [if_pos hcZ] at h
                                simp only [Except.ok.injEq, Prod.mk.injEq] at h
                                obtain ⟨rfl, rfl, rfl, rfl⟩ := h
                                obtain ⟨tk, ha, hb, hc⟩ :=
                                  singleCharFinish cs ws x t l k l₁ k₁ hwss hwsf hnl
                                refine ⟨tk, ha, hb, fun _ => hc, ?_⟩
                                intro u hu
                                injection hu with hu
                                subst hu
                                simp
                              · rw [if_neg hcZ] at h
                                by_cases hcA2 : x = '|'
                                · rw [if_pos hcA2] at h
                                  simp only [Except.ok.injEq, Prod.mk.injEq] at h
                                  obtain ⟨rfl, rfl, rfl, rfl⟩ := h
                                  obtain ⟨tk, ha, hb, hc⟩ :=
                                    singleCharFinish cs ws x t l k l₁ k₁ hwss hwsf hnl
                                  refine ⟨tk, ha, hb, fun _ => hc, ?_⟩
                                  intro u hu
                                  injection hu with hu
                                  subst hu
                                  simp
                                · rw [if_neg hcA2] at h
                                  by_cases hcB2 : x = '\x7d'
                                  · rw [if_pos hcB2] at h
                                    simp only [Except.ok.injEq, Prod.mk.injEq] at h
                                    obtain ⟨rfl, rfl, rfl, rfl⟩ := h
                                    obtain ⟨tk, ha, hb, hc⟩ :=
                                      singleCharFinish cs ws x t l k l₁ k₁ hwss hwsf hnl
                                    refine ⟨tk, ha, hb, fun _ => hc, ?_⟩
                                    intro u hu
                                    injection hu with hu
                                    subst hu
                                    simp
                                  · rw [if_neg hcB2] at h
                                    by_cases hq : x = '"'
                                    · rw [if_pos hq] at h
                                      subst hq
                                      rcases hsb : ZapLexer.readStringBody l₁ k₁ t l₁ (k₁ + 1) "" with
                                        e | ⟨v, csr, lr, kr⟩
                                      · rw [hsb] at h
                                        simp at h
                                      · rw [hsb] at h
                                        simp only [Except.ok.injEq, Prod.mk.injEq] at h
                                        obtain ⟨rfl, rfl, rfl, rfl⟩ := h
                                        obtain ⟨t2, hs2, hf2⟩ :=
                                          readStringBody_consumed l₁ k₁ t l₁ (k₁ + 1) "" v csr lr kr hsb
                                        refine ⟨ws ++ '"' :: t2, ?_, ?_, ?_, ?_⟩
                                        · conv_lhs => rw [hwss, hs2]
                                          simp
                                        · rw [List.foldl_append, ← hwsf]
                                          simp only [List.foldl_cons, stepLC_of_ne '"' l₁ k₁ (by decide)]
                                          exact hf2
                                        · intro _
                                          have h2 := congrArg List.length hs2
                                          simp only [List.length_append] at h2
                                          apply hlt
                                          omega
                                        · intro u hu
                                          injection hu with hu
                                          subst hu
                                          simp
                                    · rw [if_neg hq] at h
                                      by_cases hdg : ZapLexer.isDigit x = true
                                      · rw [if_pos hdg] at h
                                        rw [readNumberBody_cons_digit x t l₁ k₁ "" false hdg] at h
                                        obtain ⟨t2, hs2, hf2⟩ :=
                                          readNumberBody_consumed t l₁ (k₁ + 1) ("".push x) false
                                        simp only [Except.ok.injEq, Prod.mk.injEq] at h
                                        obtain ⟨rfl, rfl, rfl, rfl⟩ := h
                                        refine ⟨ws ++ x :: t2, ?_, ?_, ?_, ?_⟩
                                        · conv_lhs => rw [hwss, hs2]
                                          simp
                                        · rw [List.foldl_append, ← hwsf]
                                          simp only [List.foldl_cons, stepLC_of_ne x l₁ k₁ hnl]
                                          exact hf2
                                        · intro _
                                          have h2 := congrArg List.length hs2
                                          simp only [List.length_append] at h2
                                          apply hlt
                                          omega
                                        · intro u hu
                                          injection hu with hu
                                          subst hu
                                          simp
                                      · rw [if_neg hdg] at h
                                        by_cases hal : ZapLexer.isAlpha x = true
                                        · rw [if_pos hal] at h
                                          obtain ⟨tk2, hs2, hf2, hlen2, htype⟩ :=
                                            readIdentifier_consumed x t l₁ k₁ l₁ k₁ hal
                                          simp only [Except.ok.injEq, Prod.mk.injEq] at h
                                          obtain ⟨rfl, rfl, rfl, rfl⟩ := h
                                          refine ⟨ws ++ tk2, ?_, ?_, ?_, ?_⟩
                                          · conv_lhs => rw [hwss, hs2]
                                            simp
                                          · rw [List.foldl_append, ← hwsf]
                                            exact hf2
                                          · intro _
                                            exact hlt _ hlen2
                                          · intro u hu
                                            injection hu with hu
                                            subst hu
                                            exact htype
                                        · rw [if_neg hal] at h
                                          simp at h

theorem tokenizeGo_spec (n : Nat) :
    ∀ (cs : List Char), cs.length ≤ n → ∀ (l k : Nat),
      (∀ fuel, cs.length < fuel →
        ZapLexer.tokenizeGo fuel cs l k =
          ZapLexer.tokenizeGo (cs.length + 1) cs l k) ∧
      (∀ fuel ts, cs.length < fuel →
        ZapLexer.tokenizeGo fuel cs l k = .ok ts →
        ∃ ts', ts = ts' ++
            [⟨(cs.foldl ZapLexer.stepLC (l, k)).2,
              (cs.foldl ZapLexer.stepLC (l, k)).1, TokenType.EOF, ""⟩] ∧
          ∀ t ∈ ts', t.type ≠ TokenType.EOF) := by
  induction n with
  | zero =>
    intro cs hlen l k
    have hnil : cs = [] := List.eq_nil_of_length_eq_zero (Nat.le_zero.mp hlen)
    subst hnil
    constructor
    · intro fuel hf
      rcases fuel with _ | f
      · omega
      · simp [ZapLexer.tokenizeGo]
    · intro fuel ts hf h
      rcases fuel with _ | f
      · omega
      · simp only [ZapLexer.tokenizeGo] at h
        simp only [Except.ok.injEq] at h
        subst h
        exact ⟨[], by simp, by simp⟩
  | succ n ih =>
    intro cs hlen l k
    rcases cs with _ | ⟨c, cs'⟩
    · constructor
      · intro fuel hf
        rcases fuel with _ | f
        · omega
        · simp [ZapLexer.tokenizeGo]
      · intro fuel ts hf h
        rcases fuel with _ | f
        · omega
        · simp only [ZapLexer.tokenizeGo] at h
          simp only [Except.ok.injEq] at h
          subst h
          exact ⟨[], by simp, by simp⟩
    · have hlen' : cs'.length + 1 ≤ n + 1 := by simpa using hlen
      constructor
      · intro fuel hf
        rcases fuel with _ | f
        · simp at hf
        · simp only [List.length_cons] at hf ⊢
          conv_lhs => rw [ZapLexer.tokenizeGo]
          conv_rhs => rw [ZapLexer.tokenizeGo]
          rcases hnt : ZapLexer.nextToken (c :: cs') l k with e | ⟨otok, cs₂, l₂, k₂⟩
          · rfl
          · dsimp only
            obtain ⟨taken, hsplit, hfold, hdec, hEOF⟩ :=
              nextToken_consumed (c :: cs') l k otok cs₂ l₂ k₂ hnt
            have hlt : cs₂.length < cs'.length + 1 := by
              simpa using hdec (by simp)
            have hle : cs₂.length ≤ n := by omega
            rw [(ih cs₂ hle l₂ k₂).1 f (by omega),
              (ih cs₂ hle l₂ k₂).1 (cs'.length + 1) (by omega)]
      · intro fuel ts hf h
        rcases fuel with _ | f
        · simp at hf
        · simp only [List.length_cons] at hf
          simp only [ZapLexer.tokenizeGo] at h
          rcases hnt : ZapLexer.nextToken (c :: cs') l k with e | ⟨otok, cs₂, l₂, k₂⟩
          · rw [hnt] at h
            simp at h
          · rw [hnt] at h
            dsimp only at h
            obtain ⟨taken, hsplit, hfold, hdec, hEOF⟩ :=
              nextToken_consumed (c :: cs') l k otok cs₂ l₂ k₂ hnt
            have hlt : cs₂.length < cs'.length + 1 := by
              simpa using hdec (by simp)
            have hle : cs₂.length ≤ n := by omega
            rcases hrec : ZapLexer.tokenizeGo f cs₂ l₂ k₂ with e | rest
            · rw [hrec] at h
              simp at h
            · rw [hrec] at h
              simp only [Except.ok.injEq] at h
              obtain ⟨rest', hshape, hfree⟩ :=
                (ih cs₂ hle l₂ k₂).2 f rest (by omega) hrec
              have hfoldall : (c :: cs').foldl ZapLexer.stepLC (l, k) =
                  cs₂.foldl ZapLexer.stepLC (l₂, k₂) := by
                conv_lhs => rw [hsplit]
                rw [List.foldl_append, ← hfold]
              rcases otok with _ | tk
              · subst h
                refine ⟨rest', ?_, hfree⟩
                rw [hfoldall]
                exact hshape
              · subst h
                refine ⟨tk :: rest', ?_, ?_⟩
                · rw [hfoldall, hshape]
                  simp
                · intro u hu
                  rcases List.mem_cons.mp hu with rfl | hmem
                  · exact hEOF u rfl
                  · exact hfree u hmem

/-- **C5.** The tokenizer terminates on every input: any fuel above the
input length yields the very result of `tokenize` (whose fuel is the
input length plus one), so the loop never hits the fuel-exhaustion
branch; and whenever `tokenize` succeeds, the token list ends with a
single `EOF` token carrying the line/column at end of input, and no
earlier token is an `EOF` token. -/
theorem C5_tokenize_terminates_single_eof (s : String) :
    (∀ fuel, s.data.length < fuel →
      ZapLexer.tokenizeGo fuel s.data 1 1 = ZapLexer.tokenize s) ∧
    ∀ ts, ZapLexer.tokenize s = .ok ts →
      ∃ ts', ts = ts' ++
          [⟨(lineColEnd s).2, (lineColEnd s).1, TokenType.EOF, ""⟩] ∧
        ∀ t ∈ ts', t.type ≠ TokenType.EOF := by
  constructor
  · intro fuel hf
    rw [ZapLexer.tokenize]
    have hsl : s.length = s.data.length := rfl
    rw [hsl]
    exact (tokenizeGo_spec s.data.length s.data le_rfl 1 1).1 fuel hf
  · intro ts hts
    rw [ZapLexer.tokenize] at hts
    have hsl : s.length = s.data.length := rfl
    rw [hsl] at hts
    exact (tokenizeGo_spec s.data.length s.data le_rfl 1 1).2
      (s.data.length + 1) ts (by omega) hts

/-- Witness: the two parts of the termination/EOF theorem at the concrete
input `"ab"`, fuel `4`. -/
theorem C5_tokenize_terminates_single_eof_witness :
    "ab".data.length < 4 ∧
    ZapLexer.tokenizeGo 4 "ab".data 1 1 = ZapLexer.tokenize "ab" ∧
    ∃ ts', [(⟨1, 1, TokenType.IDENTIFIER, "ab"⟩ : Token),
        ⟨3, 1, TokenType.EOF, ""⟩] = ts' ++
        [⟨(lineColEnd "ab").2, (lineColEnd "ab").1, TokenType.EOF, ""⟩] ∧
      ∀ t ∈ ts', t.type ≠ TokenType.EOF :=
  ⟨by decide, (C5_tokenize_terminates_single_eof "ab").1 4 (by decide),
    (C5_tokenize_terminates_single_eof "ab").2
      [⟨1, 1, TokenType.IDENTIFIER, "ab"⟩, ⟨3, 1, TokenType.EOF, ""⟩]
      (by rfl)⟩
